import Mathlib

/-!
Verification development for the SVG generator's compliance/optimization
pipeline (`svg_generator/utils/compliance.py` and
`svg_generator/utils/optimization.py`).

The Python code is embedded shallowly:

* Python strings are `String`/`List Char`; `len(s.encode('utf-8'))` is
  `utf8Len` (sum of `Char.utf8Size`).
* Each `re.sub(pattern, repl, s)` call is modelled by the scanning engine
  `subst`, instantiated with a bespoke matcher per pattern.  The matchers
  reproduce the Python regex semantics for the concrete patterns used by the
  code (leftmost, non-overlapping matches; for each `X+` followed by a
  character outside `X`, greedy maximal munch coincides with backtracking).
* Python floats inside `simplify_paths` are modelled by exact decimal
  values (scaled integers) with round-half-even; this coincides with
  CPython's `round`/`str` for literals whose binary64 representation lies
  on the same side of the rounding midpoint as the exact decimal value
  (all concrete literals used below are of that kind).  Claims whose truth
  value depends on genuine binary64 rounding are out of scope of this
  model.  The overflow of `float(...)` to infinity, however, is exact:
  it happens iff the literal's magnitude reaches `2^1024 - 2^970`
  (`floatOvf`), in which case `int(rounded)` raises `OverflowError`;
  that raised exception, which nothing in the pipeline catches, is
  modelled by `Option.none` threaded through `simplify_paths`, the
  optimization levels and the controller.
* The `xml.etree.ElementTree` documents are the mutual inductives
  `XTree`/`XForest`; XML namespaces are elided (the code only ever uses the
  fixed SVG namespace, so `{http://www.w3.org/2000/svg}tag` is modelled as
  the plain tag).  `ET.fromstring` is `parse` (returning `none` for a
  `ParseError`), `ET.tostring(root, encoding='unicode')` is `tostringT`.
* All functions are fuel-based structural recursions so that every concrete
  instance evaluates inside the kernel.
-/

set_option maxRecDepth 4000

/-! ## Basic character/string utilities -/

/-- Python's `str.isspace`-style whitespace set used by the `re` module's
`\s` on `str` arguments: ASCII whitespace plus the Unicode whitespace
code points. -/
def pyWs (c : Char) : Bool :=
  c = ' ' || c = '\t' || c = '\n' || c = '\r' ||
  c = Char.ofNat 0x0b || c = Char.ofNat 0x0c ||
  c = Char.ofNat 0x1c || c = Char.ofNat 0x1d ||
  c = Char.ofNat 0x1e || c = Char.ofNat 0x1f ||
  c = Char.ofNat 0x85 || c = Char.ofNat 0xa0 ||
  c = Char.ofNat 0x1680 ||
  (Char.ofNat 0x2000 ≤ c && c ≤ Char.ofNat 0x200a) ||
  c = Char.ofNat 0x2028 || c = Char.ofNat 0x2029 ||
  c = Char.ofNat 0x202f || c = Char.ofNat 0x205f ||
  c = Char.ofNat 0x3000

def isDigitC (c : Char) : Bool := '0' ≤ c && c ≤ '9'

/-- UTF-8 byte length of a character list, i.e. `len(s.encode('utf-8'))`. -/
def utf8L (cs : List Char) : Nat := (cs.map Char.utf8Size).sum

/-- UTF-8 byte length of a string, i.e. `len(s.encode('utf-8'))`. -/
def utf8Len (s : String) : Nat := utf8L s.data

/-- `pat` is a prefix of `cs`. -/
def hasPre : List Char → List Char → Bool
  | [], _ => true
  | _ :: _, [] => false
  | p :: ps, c :: cs => p = c && hasPre ps cs

/-- `pat` occurs somewhere in `cs` (Python's `pat in s`). -/
def hasSub (pat : List Char) : List Char → Bool
  | [] => hasPre pat []
  | c :: cs => hasPre pat (c :: cs) || hasSub pat cs

/-- String-level substring test, `pat in s` in Python. -/
def strHasSub (s pat : String) : Bool := hasSub pat.data s.data

/-- Python's `str.endswith`. -/
def endsWithS (s suffix : String) : Bool :=
  hasPre suffix.data.reverse s.data.reverse

/-! ## The `re.sub` scanning engine

`subst m fuel cs` scans `cs` left to right.  At each position the matcher
`m` either fails (the character is copied and the scan advances one
position) or returns `(replacement, rest)`: the replacement is emitted and
the scan continues at `rest`, exactly like `re.sub` (matches are
non-overlapping and the replaced region is not rescanned). -/

def Matcher : Type := List Char → Option (List Char × List Char)

def subst (m : Matcher) : Nat → List Char → List Char
  | 0, cs => cs
  | _ + 1, [] => []
  | fuel + 1, c :: cs =>
    match m (c :: cs) with
    | some (repl, rest) => repl ++ subst m fuel rest
    | none => c :: subst m fuel cs

/-- Run a substitution with enough fuel for the whole input. -/
def sub1 (m : Matcher) (cs : List Char) : List Char := subst m cs.length cs

/-- A matcher whose replacement function may raise: `some (some r, rest)`
is a match replaced by `r`, `some (none, rest)` is a match whose
replacement function raised an exception, `none` is no match at this
position. -/
def MatcherE : Type := List Char → Option (Option (List Char) × List Char)

/-- The `re.sub` scanning engine for a fallible replacement function:
the scan aborts with `none` at the first match whose replacement raises
(the exception propagates out of `re.sub`). -/
def substE (m : MatcherE) : Nat → List Char → Option (List Char)
  | 0, cs => some cs
  | _ + 1, [] => some []
  | f + 1, c :: cs =>
    match m (c :: cs) with
    | some (some r, rest) => (substE m f rest).map (fun t => r ++ t)
    | some (none, _) => none
    | none => (substE m f cs).map (fun t => c :: t)

def sub1E (m : MatcherE) (cs : List Char) : Option (List Char) :=
  substE m cs.length cs

/-! ## Matchers for the concrete regex patterns -/

/-- Drop characters up to and including the first occurrence of `pat`;
`none` when `pat` does not occur. -/
def dropThrough (pat : List Char) : Nat → List Char → Option (List Char)
  | 0, _ => none
  | fuel + 1, cs =>
    if hasPre pat cs then some (cs.drop pat.length)
    else
      match cs with
      | [] => none
      | _ :: cs2 => dropThrough pat fuel cs2

/-- Matcher for a literal pattern with a literal replacement
(`re.sub(lit, rep, s)`). -/
def mLit (pat rep : List Char) : Matcher := fun cs =>
  if hasPre pat cs then some (rep, cs.drop pat.length) else none

/-- Matcher for `open.*?close` with `re.DOTALL` (leftmost-shortest span),
removed: used for `<metadata>.*?</metadata>` and `<!--.*?-->`. -/
def mSpan (openP closeP : List Char) : Matcher := fun cs =>
  if hasPre openP cs then
    match dropThrough closeP (cs.drop openP.length).length (cs.drop openP.length) with
    | some rest => some ([], rest)
    | none => none
  else none

/-- First alternative of `alts` that is a prefix of `cs`; returns the rest.
The alternation sets used by the code are prefix-free, so first-match
equals regex backtracking. -/
def matchAlt (alts : List (List Char)) (cs : List Char) : Option (List Char) :=
  match alts with
  | [] => none
  | a :: rest =>
    if hasPre a cs then some (cs.drop a.length) else matchAlt rest cs

/-- The editor namespace prefixes `(inkscape|sodipodi|dc|cc|rdf)`. -/
def editorPres : List (List Char) :=
  ["inkscape".data, "sodipodi".data, "dc".data, "cc".data, "rdf".data]

/-- Split at the first `'"'`: `(value, restAfterQuote)`; `none` when no
closing quote exists (`"[^"]*"` with the closing quote). -/
def breakQuote (cs : List Char) : Option (List Char × List Char) :=
  match cs.drop (cs.takeWhile (fun c => c ≠ '"')).length with
  | '"' :: rest => some (cs.takeWhile (fun c => c ≠ '"'), rest)
  | _ => none

/-- Matcher for `\s+xmlns:(inkscape|sodipodi|dc|cc|rdf)="[^"]+"`, removed. -/
def mXmlnsDecl : Matcher := fun cs =>
  let w := cs.takeWhile pyWs
  if w.isEmpty then none
  else
    let r1 := cs.drop w.length
    if hasPre "xmlns:".data r1 then
      match matchAlt editorPres (r1.drop 6) with
      | some r2 =>
        match r2 with
        | '=' :: '"' :: r3 =>
          match breakQuote r3 with
          | some (v, rest) => if v.isEmpty then none else some ([], rest)
          | none => none
        | _ => none
      | none => none
    else none

/-- `c` is in the class `[a-z\-]`. -/
def isLowerDash (c : Char) : Bool := ('a' ≤ c && c ≤ 'z') || c = '-'

/-- Matcher for `\s+(inkscape|sodipodi|dc|cc|rdf):[a-z\-]+="[^"]+"`,
removed. -/
def mEditorAttr : Matcher := fun cs =>
  let w := cs.takeWhile pyWs
  if w.isEmpty then none
  else
    let r1 := cs.drop w.length
    match matchAlt editorPres r1 with
    | some r2 =>
      match r2 with
      | ':' :: r3 =>
        match r3.takeWhile isLowerDash with
        | [] => none
        | _ :: _ =>
          match r3.drop (r3.takeWhile isLowerDash).length with
          | '=' :: '"' :: r4 =>
            match breakQuote r4 with
            | some (v, rest) => if v.isEmpty then none else some ([], rest)
            | none => none
          | _ => none
      | _ => none
    | none => none

/-- Matcher for `\s+` replaced by a single space. -/
def mWsCollapse : Matcher := fun cs =>
  let w := cs.takeWhile pyWs
  if w.isEmpty then none else some ([' '], cs.drop w.length)

/-- Matcher for `>\s+<` replaced by `><`. -/
def mGtWsLt : Matcher := fun cs =>
  match cs with
  | '>' :: cs1 =>
    let w := cs1.takeWhile pyWs
    if w.isEmpty then none
    else
      match cs1.drop w.length with
      | '<' :: rest => some (['>', '<'], rest)
      | _ => none
  | _ => none

/-- Matcher for `"\s+` replaced by `"`. -/
def mQuoteWs : Matcher := fun cs =>
  match cs with
  | '"' :: cs1 =>
    let w := cs1.takeWhile pyWs
    if w.isEmpty then none else some (['"'], cs1.drop w.length)
  | _ => none

/-- Matcher for `\s+="` replaced by `="`. -/
def mWsEqQuote : Matcher := fun cs =>
  let w := cs.takeWhile pyWs
  if w.isEmpty then none
  else
    match cs.drop w.length with
    | '=' :: '"' :: rest => some (['=', '"'], rest)
    | _ => none

/-- Matcher for `\s+version="[^"]+"`, removed. -/
def mWsVersion : Matcher := fun cs =>
  let w := cs.takeWhile pyWs
  if w.isEmpty then none
  else
    let r1 := cs.drop w.length
    if hasPre "version=\"".data r1 then
      match breakQuote (r1.drop 9) with
      | some (v, rest) => if v.isEmpty then none else some ([], rest)
      | none => none
    else none

/-- Matcher for `\s+name="[^"]*"`, removed (used with `id` and `class`). -/
def mWsAttrStar (name : List Char) : Matcher := fun cs =>
  let w := cs.takeWhile pyWs
  if w.isEmpty then none
  else
    let r1 := cs.drop w.length
    if hasPre (name ++ ['=', '"']) r1 then
      match breakQuote (r1.drop (name.length + 2)) with
      | some (_, rest) => some ([], rest)
      | none => none
    else none

/-- Python `str.strip()`: drop leading and trailing whitespace. -/
def pyStrip (cs : List Char) : List Char :=
  ((cs.dropWhile pyWs).reverse.dropWhile pyWs).reverse

/-! ## `SanitizeUtils.remove_metadata` -/

/-- `SanitizeUtils.remove_metadata`: strips `<metadata>…</metadata>` spans,
comments, editor `xmlns:` declarations and editor-prefixed attributes, in
that order (four `re.sub` passes). -/
def remove_metadata (svg_str : String) : String :=
  let c1 := sub1 (mSpan "<metadata>".data "</metadata>".data) svg_str.data
  let c2 := sub1 (mSpan "<!--".data "-->".data) c1
  let c3 := sub1 mXmlnsDecl c2
  let c4 := sub1 mEditorAttr c3
  ⟨c4⟩

/-! ## `SanitizeUtils.minify_svg` -/

/-- `SanitizeUtils.minify_svg`: collapses whitespace, tightens tag and
attribute punctuation, drops `version="…"`, applies the (identity)
`stroke-width="1"` rewrite, and strips the ends. -/
def minify_svg (svg_str : String) : String :=
  let c1 := sub1 mWsCollapse svg_str.data
  let c2 := sub1 mGtWsLt c1
  let c3 := sub1 mQuoteWs c2
  let c4 := sub1 mWsEqQuote c3
  let c5 := sub1 mWsVersion c4
  let c6 := sub1 (mLit "stroke-width=\"1\"".data "stroke-width=\"1\"".data) c5
  ⟨pyStrip c6⟩

/-! ## `SanitizeUtils.validate_size` -/

/-! ## `SanitizeUtils.simplify_paths`

The numeric rewrite `float` / `round(·, precision)` / `str` is modelled
over exact decimal rationals with round-half-even; see the header note on
floating point. -/

/-- One decimal digit as a character. -/
def digitChar : Nat → Char
  | 0 => '0' | 1 => '1' | 2 => '2' | 3 => '3' | 4 => '4'
  | 5 => '5' | 6 => '6' | 7 => '7' | 8 => '8' | _ => '9'

/-- Decimal digits of a natural number (helper with fuel). -/
def natStrGo : Nat → Nat → List Char
  | 0, _ => []
  | f + 1, n =>
    if n < 10 then [digitChar n]
    else natStrGo f (n / 10) ++ [digitChar (n % 10)]

/-- Decimal digits of a natural number, as Python's `str`. -/
def natStr (n : Nat) : List Char := natStrGo (n + 1) n

/-- Python's `str` of an integer. -/
def intStr (z : ℤ) : List Char :=
  (if z < 0 then ['-'] else []) ++ natStr z.natAbs

/-- Numeric value of a digit character. -/
def digitVal (c : Char) : Nat := c.toNat - '0'.toNat

/-- Value of a digit run. -/
def digitsVal (cs : List Char) : Nat := cs.foldl (fun a c => 10 * a + digitVal c) 0

/-- Exact value of a literal matched by `[-+]?[0-9]*\.?[0-9]+` (Python's
`float(...)`, taken exactly) as a scaled integer: `(z, k)` stands for
`z / 10^k`. -/
def parseDecScaled (cs : List Char) : ℤ × ℕ :=
  let (sgn, cs1) :=
    match cs with
    | '-' :: t => ((-1 : ℤ), t)
    | '+' :: t => ((1 : ℤ), t)
    | _ => ((1 : ℤ), cs)
  let ip := cs1.takeWhile isDigitC
  let rest := cs1.drop ip.length
  let fp := match rest with
    | '.' :: t => t.takeWhile isDigitC
    | _ => []
  (sgn * ((digitsVal ip : ℤ) * ((10 ^ fp.length : ℕ) : ℤ) + (digitsVal fp : ℤ)),
    fp.length)

/-- Round `n / d` (with `d > 0`) to the nearest integer, ties to even
(CPython's rounding mode). -/
def roundHalfEvenDiv (n d : ℤ) : ℤ :=
  let q := n.ediv d
  let r := n.emod d
  if 2 * r < d then q
  else if d < 2 * r then q + 1
  else if q.emod 2 = 0 then q else q + 1

/-- `round(x, p)` scaled by `10^p`: for the literal value `z / 10^k` the
rounded value is `pyRoundScaled p z k / 10^p`. -/
def pyRoundScaled (p : Nat) (z : ℤ) (k : ℕ) : ℤ :=
  roundHalfEvenDiv (z * ((10 ^ p : ℕ) : ℤ)) ((10 ^ k : ℕ) : ℤ)

/-- Drop trailing `'0'` characters. -/
def stripZeros (cs : List Char) : List Char :=
  (cs.reverse.dropWhile (fun c => c = '0')).reverse

/-- Left-pad a digit list with `'0'` up to length `p`. -/
def padZeros (p : Nat) (cs : List Char) : List Char :=
  List.replicate (p - cs.length) '0' ++ cs

/-- The text emitted for the rounded value `z / 10^p`: `str(int(r))` when
the value is integral, else `str(r)` (shortest decimal, matching Python's
`repr` in the value range produced here). -/
def numStrZ (p : Nat) (z : ℤ) : List Char :=
  if p = 0 then intStr z
  else if z.natAbs % 10 ^ p = 0 then
    (if z < 0 then ['-'] else []) ++ natStr (z.natAbs / 10 ^ p)
  else
    (if z < 0 then ['-'] else []) ++ natStr (z.natAbs / 10 ^ p) ++
      '.' :: stripZeros (padZeros p (natStr (z.natAbs % 10 ^ p)))

/-- `float(...)` of a matched literal overflows to `±inf` exactly when
the literal's magnitude is at least `2^1024 - 2^970`: IEEE-754 binary64
conversion rounds to nearest (ties to even), the largest finite double is
`2^1024 - 2^971`, and every value from the midpoint `2^1024 - 2^970` on
rounds up to `2^1024`, i.e. to infinity.  For the exact decimal value
`z / 10^k` this is the integer comparison below.  In that case
`round(inf, p)` is still `inf` and `int(inf)` raises `OverflowError`
(compliance.py line 88). -/
def floatOvf (z : ℤ) (k : ℕ) : Bool :=
  decide ((2 ^ 1024 - 2 ^ 970) * 10 ^ k ≤ z.natAbs)

/-- The replacement for one matched numeric literal (`replace_number`);
`none` models the `OverflowError` raised by `int(rounded)` when the
literal overflowed `float` to infinity. -/
def replaceNumber (p : Nat) (span : List Char) : Option (List Char) :=
  if floatOvf (parseDecScaled span).1 (parseDecScaled span).2 then none
  else
    some (numStrZ p (pyRoundScaled p (parseDecScaled span).1 (parseDecScaled span).2))

/-- The unsigned part of the number pattern `[0-9]*\.?[0-9]+`: digit run,
optional dot, digit run; at least one digit after the optional dot.
Backtracking over the optional dot reduces to this case analysis because
a digit run ends exactly at the first non-digit. -/
def numSpanCore (cs1 : List Char) : Option (List Char × List Char) :=
  match cs1.takeWhile isDigitC with
  | [] =>
    match cs1.drop (cs1.takeWhile isDigitC).length with
    | '.' :: cs3 =>
      match cs3.takeWhile isDigitC with
      | [] => none
      | c :: d2 => some ('.' :: c :: d2, cs3.drop (c :: d2).length)
    | _ => none
  | a :: d1 =>
    match cs1.drop (cs1.takeWhile isDigitC).length with
    | '.' :: cs3 =>
      match cs3.takeWhile isDigitC with
      | [] => some (a :: d1, cs1.drop (cs1.takeWhile isDigitC).length)
      | c :: d2 =>
        some ((a :: d1) ++ '.' :: c :: d2, cs3.drop (c :: d2).length)
    | _ => some (a :: d1, cs1.drop (cs1.takeWhile isDigitC).length)

def numSpan (cs : List Char) : Option (List Char × List Char) :=
  match cs with
  | '-' :: t => (numSpanCore t).map (fun sr => ('-' :: sr.1, sr.2))
  | '+' :: t => (numSpanCore t).map (fun sr => ('+' :: sr.1, sr.2))
  | _ => numSpanCore cs

/-- Matcher for one numeric literal inside path data, replaced by its
rounded rendering; the replacement part is `none` when `replace_number`
raises `OverflowError` on the literal. -/
def mNum (p : Nat) : MatcherE := fun cs =>
  match numSpan cs with
  | some (span, rest) => some (replaceNumber p span, rest)
  | none => none

/-- Matcher for `d="([^"]+)"`, replaced by `'d="' + rounded + '"'`
(the body of `round_numbers`); the group `[^"]+` is the nonempty text up
to the closing quote.  An `OverflowError` raised while rounding a
numeral of the group propagates (`some (none, rest)`). -/
def mDSeg (p : Nat) : MatcherE := fun cs =>
  if hasPre "d=\"".data cs then
    match breakQuote (cs.drop 3) with
    | some ([], _) => none
    | some (v, rest) =>
      match sub1E (mNum p) v with
      | some v2 => some (some ("d=\"".data ++ v2 ++ ['"']), rest)
      | none => some (none, rest)
    | none => none
  else none

/-- `SanitizeUtils.simplify_paths`: rounds every numeric literal inside
each `d="..."` match to `precision` decimals.  `none` models the
`OverflowError` that propagates out of the function when some matched
literal overflows `float` (nothing in the pipeline catches it). -/
def simplify_paths (svg_str : String) (precision : Nat) : Option String :=
  (sub1E (mDSeg precision) svg_str.data).map (fun cs => ⟨cs⟩)

/-! ## `CompetitionOptimizer._remove_unnecessary_attributes` -/

/-- `CompetitionOptimizer._remove_unnecessary_attributes`: strips
whitespace-preceded `id="…"` and `class="…"` attributes and a fixed list
of default-valued attributes (the `stroke-width="1"` rewrite is the
identity). -/
def remove_unnecessary_attributes (svg_str : String) : String :=
  let c1 := sub1 (mWsAttrStar "id".data) svg_str.data
  let c2 := sub1 (mWsAttrStar "class".data) c1
  let c3 := sub1 (mLit "opacity=\"1\"".data []) c2
  let c4 := sub1 (mLit "fill-opacity=\"1\"".data []) c3
  let c5 := sub1 (mLit "stroke-opacity=\"1\"".data []) c4
  let c6 := sub1 (mLit "stroke-width=\"1\"".data "stroke-width=\"1\"".data) c5
  let c7 := sub1 (mLit "stroke-linecap=\"butt\"".data []) c6
  let c8 := sub1 (mLit "stroke-linejoin=\"miter\"".data []) c7
  ⟨c8⟩

/-- `SanitizeUtils.validate_size`: `(size_kb <= max_size_kb, size_kb)` with
`size_kb = len(svg_str.encode('utf-8')) / 1024`.  The byte count is taken
on exactly the given text; the division is exact here (modelled in `ℚ`). -/
def validate_size (svg_str : String) (max_size_kb : ℚ) : Bool × ℚ :=
  let size_bytes := utf8Len svg_str
  let size_kb : ℚ := (size_bytes : ℚ) / 1024
  (decide (size_kb ≤ max_size_kb), size_kb)

/-! ## The `xml.etree.ElementTree` document model

Elements carry a tag, an ordered attribute list, the leading text, the
trailing tail text and an ordered forest of children.  `text`/`tail` are
plain strings with `""` standing for Python's `None` (the serializer only
tests truthiness, so the two are indistinguishable for this code). -/

mutual

inductive XTree where
  | node (tag : String) (attrs : List (String × String))
      (text tail : String) (kids : XForest) : XTree

inductive XForest where
  | fnil : XForest
  | fcons (t : XTree) (ts : XForest) : XForest

end

def XTree.tag : XTree → String
  | .node tg _ _ _ _ => tg

def XTree.attrs : XTree → List (String × String)
  | .node _ a _ _ _ => a

def XTree.kids : XTree → XForest
  | .node _ _ _ _ k => k

def XForest.toList : XForest → List XTree
  | .fnil => []
  | .fcons t ts => t :: ts.toList

def XForest.isNil : XForest → Bool
  | .fnil => true
  | .fcons _ _ => false

/-- `elem.get(name)`: first binding of `name` in the attribute list. -/
def getAttr (name : String) (t : XTree) : Option String :=
  (t.attrs.find? (fun kv => kv.1 = name)).map (·.2)

/-- ElementTree's attribute-value escaping (`_escape_attrib`). -/
def escAttrC (c : Char) : List Char :=
  if c = '&' then "&amp;".data
  else if c = '<' then "&lt;".data
  else if c = '>' then "&gt;".data
  else if c = '"' then "&quot;".data
  else if c = '\r' then "&#13;".data
  else if c = '\n' then "&#10;".data
  else if c = '\t' then "&#09;".data
  else [c]

/-- ElementTree's character-data escaping (`_escape_cdata`). -/
def escTextC (c : Char) : List Char :=
  if c = '&' then "&amp;".data
  else if c = '<' then "&lt;".data
  else if c = '>' then "&gt;".data
  else [c]

def escAttr (s : String) : List Char := s.data.flatMap escAttrC

def escText (s : String) : List Char := s.data.flatMap escTextC

def attrsText (attrs : List (String × String)) : List Char :=
  attrs.flatMap (fun kv => ' ' :: kv.1.data ++ '=' :: '"' :: escAttr kv.2 ++ ['"'])

mutual

/-- `ET.tostring(elem, encoding='unicode')` (namespaces elided): short
empty-element form `<tag … />` when there is no text and no child. -/
def tostringT : XTree → List Char
  | .node tg attrs text tail kids =>
    '<' :: tg.data ++ attrsText attrs ++
      (if text = "" && kids.isNil then " />".data
       else '>' :: escText text ++ tostringF kids ++ '<' :: '/' :: tg.data ++ ['>']) ++
      escText tail

def tostringF : XForest → List Char
  | .fnil => []
  | .fcons t ts => tostringT t ++ tostringF ts

end

/-- Serialized document as a string. -/
def tostring (t : XTree) : String := ⟨tostringT t⟩

mutual

/-- All proper descendants of the trees of a forest, in document order:
this is `root.findall(".//*")` when applied to the root's children. -/
def descsT (t : XTree) : List XTree :=
  match t with
  | .node _ _ _ _ kids => descsF kids

def descsF : XForest → List XTree
  | .fnil => []
  | .fcons t ts => t :: descsT t ++ descsF ts

end

mutual

/-- First descendant (document order) with the given tag:
`root.find(".//tag")` when applied to the root's children. -/
def findTagT (tg : String) (t : XTree) : Option XTree :=
  match t with
  | .node _ _ _ _ kids => findTagF tg kids

def findTagF (tg : String) : XForest → Option XTree
  | .fnil => none
  | .fcons t ts =>
    if t.tag = tg then some t
    else
      match findTagT tg t with
      | some d => some d
      | none => findTagF tg ts

end

/-! ## `ET.fromstring`

A fuel-based recursive-descent parser for the XML subset the documents of
this code base use: elements, attributes (either quote style), character
data with the predefined and numeric entity references, comments and
processing instructions (both dropped, as by expat's default handlers),
line-end and attribute-value whitespace normalization.  `none` models
`ET.ParseError`.  DOCTYPE, CDATA sections and namespace prefixes are
outside the subset (the code never produces them). -/

def isXmlWs (c : Char) : Bool := c = ' ' || c = '\t' || c = '\n' || c = '\r'

/-- expat's line-ending normalization: `\r\n` and `\r` become `\n`. -/
def normEol : List Char → List Char
  | [] => []
  | '\r' :: '\n' :: r => '\n' :: normEol r
  | '\r' :: r => '\n' :: normEol r
  | c :: r => c :: normEol r

def isNameChar (c : Char) : Bool :=
  c.isAlphanum || c = '-' || c = '_' || c = '.'

/-- Decode one entity reference; the input starts right after `&`. -/
def decodeEnt (cs : List Char) : Option (Char × List Char) :=
  if hasPre "amp;".data cs then some ('&', cs.drop 4)
  else if hasPre "lt;".data cs then some ('<', cs.drop 3)
  else if hasPre "gt;".data cs then some ('>', cs.drop 3)
  else if hasPre "quot;".data cs then some ('"', cs.drop 5)
  else if hasPre "apos;".data cs then some ('\'', cs.drop 5)
  else
    match cs with
    | '#' :: rest =>
      let ds := rest.takeWhile isDigitC
      if ds.isEmpty then none
      else
        match rest.drop ds.length with
        | ';' :: r2 =>
          let n := digitsVal ds
          if n < 0xd800 then some (Char.ofNat n, r2) else none
        | _ => none
    | _ => none

/-- Collect character data until `stop` (or end of input when
`stopAtEnd`), decoding entities; a bare `&` or a `<` inside an attribute
value is a parse error.  `inAttr` applies attribute-value whitespace
normalization. -/
def parseText (stop : Char) (stopAtEnd inAttr : Bool) :
    Nat → List Char → Option (List Char × List Char)
  | 0, _ => none
  | _ + 1, [] => if stopAtEnd then some ([], []) else none
  | fuel + 1, c :: cs =>
    if c = stop then some ([], c :: cs)
    else if inAttr && c = '<' then none
    else if c = '&' then
      match decodeEnt cs with
      | some (d, rest) =>
        match parseText stop stopAtEnd inAttr fuel rest with
        | some (t, r) => some (d :: t, r)
        | none => none
      | none => none
    else
      let c2 := if inAttr && (c = '\n' || c = '\t') then ' ' else c
      match parseText stop stopAtEnd inAttr fuel cs with
      | some (t, r) => some (c2 :: t, r)
      | none => none

/-- Skip whitespace, comments and processing instructions (the material
allowed around the document element). -/
def skipMisc : Nat → List Char → Option (List Char)
  | 0, _ => none
  | _ + 1, [] => some []
  | fuel + 1, c :: cs =>
    if isXmlWs c then skipMisc fuel cs
    else if hasPre "<!--".data (c :: cs) then
      match dropThrough "-->".data cs.length (cs.drop 3) with
      | some r => skipMisc fuel r
      | none => none
    else if hasPre "<?".data (c :: cs) then
      match dropThrough "?>".data cs.length (cs.drop 1) with
      | some r => skipMisc fuel r
      | none => none
    else some (c :: cs)

/-- One content item of an element: a character-data chunk or a child
element. -/
inductive PItem where
  | ptext (t : List Char) : PItem
  | pelem (e : XTree) : PItem

def XTree.withTail (t : XTree) (tl : String) : XTree :=
  match t with
  | .node tg a txt _ k => .node tg a txt tl k

/-- Assemble parsed content items: the leading text becomes the parent's
`text`, text after each child element becomes that child's `tail`. -/
def asm : List PItem → (List Char × XForest)
  | [] => ([], .fnil)
  | .ptext t :: r =>
    let (tx, ks) := asm r
    (t ++ tx, ks)
  | .pelem e :: r =>
    let (tx, ks) := asm r
    ([], .fcons (e.withTail ⟨tx⟩) ks)

/-- Parse the attribute list of a start tag, ending at `>` or `/>`.
Returns `(attrs, restAfterGt, selfClosing)`. -/
def parseAttrs : Nat → List Char → List (String × String) →
    Option (List (String × String) × List Char × Bool)
  | 0, _, _ => none
  | fuel + 1, cs, acc =>
    let w := cs.takeWhile isXmlWs
    let cs1 := cs.drop w.length
    match cs1 with
    | '/' :: '>' :: r => some (acc.reverse, r, true)
    | '>' :: r => some (acc.reverse, r, false)
    | _ =>
      if w.isEmpty ∧ ¬ acc.isEmpty then none
      else
        let nm := cs1.takeWhile isNameChar
        if nm.isEmpty then none
        else
          let cs2 := (cs1.drop nm.length).dropWhile isXmlWs
          match cs2 with
          | '=' :: cs3 =>
            let cs4 := cs3.dropWhile isXmlWs
            match cs4 with
            | q :: cs5 =>
              if q = '"' ∨ q = '\'' then
                match parseText q false true cs5.length cs5 with
                | some (v, _ :: r) =>
                  if acc.any (fun kv => kv.1.data = nm) then none
                  else parseAttrs fuel r ((⟨nm⟩, ⟨v⟩) :: acc)
                | _ => none
              else none
            | [] => none
          | _ => none

mutual

/-- Parse one element; the input starts at its `<`. -/
def parseElem : Nat → List Char → Option (XTree × List Char)
  | 0, _ => none
  | fuel + 1, cs =>
    match cs with
    | '<' :: cs1 =>
      let nm := cs1.takeWhile isNameChar
      if nm.isEmpty ∨ isDigitC nm.head! then none
      else
        match parseAttrs cs1.length (cs1.drop nm.length) [] with
        | some (attrs, rest, true) =>
          some (.node ⟨nm⟩ attrs "" "" .fnil, rest)
        | some (attrs, rest, false) =>
          match parseItems fuel rest with
          | some (items, rest2) =>
            match rest2 with
            | '<' :: '/' :: rest3 =>
              if hasPre nm rest3 then
                match (rest3.drop nm.length).dropWhile isXmlWs with
                | '>' :: rest4 =>
                  let (txt, kids) := asm items
                  some (.node ⟨nm⟩ attrs ⟨txt⟩ "" kids, rest4)
                | _ => none
              else none
            | _ => none
          | none => none
        | none => none
    | _ => none

/-- Parse element content up to the closing tag: a list of text chunks
and child elements (comments and processing instructions dropped). -/
def parseItems : Nat → List Char → Option (List PItem × List Char)
  | 0, _ => none
  | _ + 1, [] => some ([], [])
  | fuel + 1, c :: cs =>
    if hasPre "</".data (c :: cs) then some ([], c :: cs)
    else if hasPre "<!--".data (c :: cs) then
      match dropThrough "-->".data cs.length (cs.drop 3) with
      | some r => parseItems fuel r
      | none => none
    else if hasPre "<?".data (c :: cs) then
      match dropThrough "?>".data cs.length (cs.drop 1) with
      | some r => parseItems fuel r
      | none => none
    else if hasPre "<!".data (c :: cs) then none
    else if c = '<' then
      match parseElem fuel (c :: cs) with
      | some (e, rest) =>
        match parseItems fuel rest with
        | some (items, rest2) => some (.pelem e :: items, rest2)
        | none => none
      | none => none
    else
      match parseText '<' true false (c :: cs).length (c :: cs) with
      | some (t, rest) =>
        match parseItems fuel rest with
        | some (items, rest2) => some (.ptext t :: items, rest2)
        | none => none
      | none => none

end

/-- `ET.fromstring`: parse a document; comments, PIs and whitespace may
surround the single document element, and an XML declaration may open the
input. -/
def parse (s : String) : Option XTree :=
  let cs0 := normEol s.data
  let fuel := cs0.length + 1
  match skipMisc fuel cs0 with
  | none => none
  | some cs1 =>
    match parseElem fuel cs1 with
    | none => none
    | some (t, rest) =>
      match skipMisc fuel rest with
      | some [] => some t
      | _ => none

/-! ## `SanitizeUtils.remove_unused_defs` -/

/-- Reference test for one definition id: `f'url(#{id})' in svg_text or
f'href="#{id}"' in svg_text`. -/
def refTest (svg_text : List Char) (a : String) : Bool :=
  hasSub ("url(#".data ++ a.data ++ [')']) svg_text ||
  hasSub ("href=\"#".data ++ a.data ++ ['"']) svg_text

/-- The ids collected from the direct children of the defs element: the
`if id_attr:` truthiness guard skips both a missing `id` attribute
(`None`) and an empty one (`""`). -/
def collectIds (d : XTree) : List String :=
  (d.kids.toList.filterMap (getAttr "id")).filter (fun a => a ≠ "")

def listToForest : List XTree → XForest
  | [] => .fnil
  | t :: ts => .fcons t (listToForest ts)

mutual

/-- Replace the children of the first `defs` descendant (document order)
by those satisfying `keep`; the returned flag reports whether a `defs`
was found in the subtree.  Mirrors the `defs_elem.remove(child)` loop. -/
def pruneT (keep : XTree → Bool) : XTree → XTree × Bool
  | .node tg a tx tl kids =>
    if tg = "defs" then
      (.node tg a tx tl (listToForest (kids.toList.filter keep)), true)
    else
      let (ks, fl) := pruneF keep kids
      (.node tg a tx tl ks, fl)

def pruneF (keep : XTree → Bool) : XForest → XForest × Bool
  | .fnil => (.fnil, false)
  | .fcons t ts =>
    let (t2, fl) := pruneT keep t
    if fl then (.fcons t2 ts, true)
    else
      let (ts2, fl2) := pruneF keep ts
      (.fcons t2 ts2, fl2)

end

/-- Prune the first `defs` among the root's proper descendants (the root
itself is not matched by `.//defs`). -/
def pruneRoot (keep : XTree → Bool) : XTree → XTree
  | .node tg a tx tl kids => .node tg a tx tl (pruneF keep kids).1

/-- The tree-level body of `SanitizeUtils.remove_unused_defs`: collect
the (truthy) ids of the defs children, serialize the whole document, and
remove exactly the children whose id passes the `if id_attr:` truthiness
guard but occurs in no `url(#id)`/`href="#id"` reference; a child with a
missing or empty id is always kept. -/
def remove_unused_defs_core (root : XTree) : XTree :=
  match findTagT "defs" root with
  | none => root
  | some d =>
    let def_ids := collectIds d
    let svg_text := tostringT root
    let used_ids := def_ids.filter (refTest svg_text)
    pruneRoot
      (fun c =>
        match getAttr "id" c with
        | none => true
        | some a => a = "" || used_ids.contains a)
      root

/-- `SanitizeUtils.remove_unused_defs`: parse, prune the first defs,
re-serialize; the input is returned unchanged on a parse error or when no
defs element exists. -/
def remove_unused_defs (svg_str : String) : String :=
  match parse svg_str with
  | none => svg_str
  | some root =>
    match findTagT "defs" root with
    | none => svg_str
    | some _ => tostring (remove_unused_defs_core root)

/-! ## `CompetitionOptimizer._group_similar_elements` -/

/-- The style key of an element: the present ones among `fill`, `stroke`,
`stroke-width`, `opacity`, as `tuple(sorted(style_attrs.items()))`.  The
sorted key order is `fill < opacity < stroke < stroke-width`, so the list
is built directly in that order. -/
def styleKey (e : XTree) : List (String × String) :=
  ["fill", "opacity", "stroke", "stroke-width"].filterMap
    (fun a => (getAttr a e).map (fun v => (a, v)))

/-- The style keys of all bucketed descendants: every descendant whose tag
does not end in `g` or `defs` and whose style key is nonempty. -/
def bucketKeys (root : XTree) : List (List (String × String)) :=
  (descsT root).filterMap
    (fun e =>
      if endsWithS e.tag "g" || endsWithS e.tag "defs" then none
      else
        let k := styleKey e
        if k.isEmpty then none else some k)

/-- Some style bucket has at least 3 members. -/
def hasBigBucket (root : XTree) : Bool :=
  (bucketKeys root).any (fun k => 3 ≤ (bucketKeys root).count k)

/-- `CompetitionOptimizer._group_similar_elements`.  When some bucket has
at least 3 members the code reaches `elem.getparent()`, which does not
exist on `xml.etree` elements; the raised `AttributeError` is swallowed by
the `except (ET.ParseError, AttributeError)` handler and the input string
is returned unchanged, discarding the partially mutated tree.  Otherwise
no bucket qualifies, nothing is modified, and the re-serialized tree is
returned. -/
def group_similar_elements (svg_str : String) : String :=
  match parse svg_str with
  | none => svg_str
  | some root => if hasBigBucket root then svg_str else tostring root

/-! ## `CompetitionOptimizer._remove_nonessential_elements` -/

/-- `CompetitionOptimizer._remove_nonessential_elements`.  Any found
`title`/`desc` element or empty `g` leads to `elem.getparent()`, so the
`AttributeError` handler returns the input unchanged in exactly those
cases; otherwise the tree is re-serialized untouched. -/
def remove_nonessential_elements (svg_str : String) : String :=
  match parse svg_str with
  | none => svg_str
  | some root =>
    if (descsT root).any (fun e => e.tag = "title") then svg_str
    else if (descsT root).any (fun e => e.tag = "desc") then svg_str
    else if (descsT root).any (fun e => e.tag = "g" && e.kids.isNil) then svg_str
    else tostring root

/-! ## `CompetitionOptimizer._optimize_maximum` -/

/-- `re.match(r'^[-+]?[0-9]*\.0+$', value)`. -/
def intAttrPat (cs : List Char) : Bool :=
  let cs1 := match cs with
    | '-' :: t => t
    | '+' :: t => t
    | _ => cs
  let cs2 := cs1.dropWhile isDigitC
  match cs2 with
  | '.' :: cs3 => !cs3.isEmpty && cs3.all (fun c => c = '0')
  | _ => false

/-- `value.split('.')[0]` applied to matching attribute values. -/
def intSimplify (v : String) : String :=
  if intAttrPat v.data then ⟨v.data.takeWhile (fun c => c ≠ '.')⟩ else v

mutual

/-- Apply `intSimplify` to every attribute value of every element
(`root.iter()` includes the root). -/
def intSimplifyT : XTree → XTree
  | .node tg a tx tl kids =>
    .node tg (a.map (fun kv => (kv.1, intSimplify kv.2))) tx tl (intSimplifyF kids)

def intSimplifyF : XForest → XForest
  | .fnil => .fnil
  | .fcons t ts => .fcons (intSimplifyT t) (intSimplifyF ts)

end

/-- `CompetitionOptimizer._optimize_maximum`: parse, truncate
integer-valued `…\.0+` attribute values, re-serialize, minify.  A parsed
`xml.etree` tree contains no comment or processing-instruction nodes, so
the comment-removal loop never fires and `getparent` is not reached; on a
parse error the input is returned unchanged. -/
def optimize_maximum (svg_str : String) : String :=
  match parse svg_str with
  | none => svg_str
  | some root => minify_svg (tostring (intSimplifyT root))

/-! ## `CompetitionOptimizer.optimize` and its levels -/

/-- Level 1: prune unused defs, then path precision 2 (`none` when
`simplify_paths` raises). -/
def optimize_level_1 (svg_str : String) : Option String :=
  simplify_paths (remove_unused_defs svg_str) 2

/-- Level 2: path precision 1, then remove unnecessary attributes. -/
def optimize_level_2 (svg_str : String) : Option String :=
  (simplify_paths svg_str 1).map remove_unnecessary_attributes

/-- Level 3: minify, then group similar elements (no raising stage). -/
def optimize_level_3 (svg_str : String) : Option String :=
  some (group_similar_elements (minify_svg svg_str))

/-- Level 4: path precision 0, then remove nonessential elements. -/
def optimize_level_4 (svg_str : String) : Option String :=
  (simplify_paths svg_str 0).map remove_nonessential_elements

def optimization_levels : List (String → Option String) :=
  [optimize_level_1, optimize_level_2, optimize_level_3, optimize_level_4]

/-- The `for optimize_func in optimization_levels` loop with its early
return, falling through to `_optimize_maximum`.  A level that raises
aborts the whole controller (`none`): nothing catches the
`OverflowError`. -/
def runLevels (kb : ℚ) : List (String → Option String) → String → Option (String × ℚ)
  | [], r =>
    let r2 := optimize_maximum r
    some (r2, (validate_size r2 kb).2)
  | f :: fs, r =>
    match f r with
    | none => none
    | some r2 =>
      let vk := validate_size r2 kb
      if vk.1 then some (r2, vk.2) else runLevels kb fs r2

/-- `CompetitionOptimizer.optimize` with `max_size_kb` as the instance
budget; `none` models the `OverflowError` that propagates out of
`optimize` when an applied level's path simplification raises. -/
def optimize (svg_str : String) (max_size_kb : ℚ) : Option (String × ℚ) :=
  let result := remove_metadata svg_str
  let vk := validate_size result max_size_kb
  if vk.1 then some (result, vk.2)
  else runLevels max_size_kb optimization_levels result

/-! ## Spec-side escalation chain (for the controller claim)

Written after the spec's description of the controller: sanitize, return
on compliance, apply L1..L4 in order re-measuring after each, then the
maximum-aggression transform exactly once; the third component counts the
stage applications beyond sanitization.  The chain is cut short (`none`)
at the first level that raises. -/

def escalationSpec (svg_str : String) (kb : ℚ) : Option (String × ℚ × Nat) :=
  let s0 := remove_metadata svg_str
  if (validate_size s0 kb).1 then some (s0, (validate_size s0 kb).2, 0)
  else
    match optimize_level_1 s0 with
    | none => none
    | some s1 =>
      if (validate_size s1 kb).1 then some (s1, (validate_size s1 kb).2, 1)
      else
        match optimize_level_2 s1 with
        | none => none
        | some s2 =>
          if (validate_size s2 kb).1 then some (s2, (validate_size s2 kb).2, 2)
          else
            match optimize_level_3 s2 with
            | none => none
            | some s3 =>
              if (validate_size s3 kb).1 then some (s3, (validate_size s3 kb).2, 3)
              else
                match optimize_level_4 s3 with
                | none => none
                | some s4 =>
                  if (validate_size s4 kb).1 then some (s4, (validate_size s4 kb).2, 4)
                  else
                    let s5 := optimize_maximum s4
                    some (s5, (validate_size s5 kb).2, 5)

/-! ## Letter-preservation machinery for the path-precision reducer -/

/-- ASCII letters: the alphabet of SVG path command letters. -/
def isAsciiLetter (c : Char) : Bool :=
  ('A' ≤ c && c ≤ 'Z') || ('a' ≤ c && c ≤ 'z')

/-- The subsequence of ASCII letters of a text, in order. -/
def letters (cs : List Char) : List Char := cs.filter isAsciiLetter


/-- The shape of the per-matcher obligation for size monotonicity. -/
def MonoMatcher (m : Matcher) : Prop :=
  ∀ cs r rest, m cs = some (r, rest) → utf8L r + utf8L rest ≤ utf8L cs

/-- The shape of the per-matcher obligation for letter preservation, for
the fallible engine: it constrains successful replacements only (a
failing one aborts the whole scan). -/
def AlphaMatcherE (m : MatcherE) : Prop :=
  ∀ cs r rest, m cs = some (some r, rest) → letters (r ++ rest) = letters cs

/-- The spec side of the reference-safety claim, following the amended
wording: a defs child is kept iff it has no id, its id is empty (the
code's `if id_attr:` truthiness guard), or its id occurs in the
serialized document through the exact patterns `url(#id)` or
`href="#id"`. -/
def keepSpec (t c : XTree) : Bool :=
  match getAttr "id" c with
  | none => true
  | some a => a = "" || refTest (tostringT t) a

/-- A concrete document for the pruner: a defs with one referenced
gradient, one unreferenced gradient, one child without id and one child
with an empty id, plus a rect referencing `g2`. -/
def c2defs : XTree :=
  .node "defs" [] "" ""
    (.fcons (.node "linearGradient" [("id", "g1")] "" "" .fnil)
      (.fcons (.node "linearGradient" [("id", "g2")] "" "" .fnil)
        (.fcons (.node "filter" [] "" "" .fnil)
          (.fcons (.node "circle" [("id", "")] "" "" .fnil) .fnil))))

def c2doc : XTree :=
  .node "svg" [] "" ""
    (.fcons c2defs
      (.fcons (.node "rect" [("fill", "url(#g2)")] "" "" .fnil) .fnil))

/-- A document whose defs has a single child with an empty id and whose
serialized text contains neither reference pattern. -/
def c2emptyDefs : XTree :=
  .node "defs" [] "" "" (.fcons (.node "filter" [("id", "")] "" "" .fnil) .fnil)

def c2emptyDoc : XTree :=
  .node "svg" [] "" "" (.fcons c2emptyDefs .fnil)

/-- A 320-digit numeral: its value exceeds the binary64 overflow
threshold `2^1024 - 2^970 < 1.8 * 10^308`. -/
def bigNum : List Char := List.replicate 320 '9'

/-- A document over a quarter-kilobyte budget whose `d` attribute holds
an overflowing numeral, so that the controller reaches level 1 and
`simplify_paths` raises there. -/
def bigD : String := ⟨"<svg><path d=\"".data ++ bigNum ++ "\" /></svg>".data⟩

/-! # Theorems -/

/-- Claim C3: `validate_size` returns `(compliant, size_kb)` where
`size_kb` is the UTF-8 byte length of exactly the given text divided by
1024 and `compliant` holds iff that byte length is at most
`ceiling * 1024` bytes; the text itself is only measured, never rewritten
(the function reads `svg_str` solely through `utf8Len`). -/
theorem validate_size_spec (s : String) (m : ℚ) :
    ((validate_size s m).1 = true ↔ (utf8Len s : ℚ) ≤ m * 1024) ∧
    (validate_size s m).2 = (utf8Len s : ℚ) / 1024 := by
  refine ⟨?_, rfl⟩
  show (decide ((utf8Len s : ℚ) / 1024 ≤ m) = true) ↔ _
  rw [decide_eq_true_iff, div_le_iff₀ (by norm_num : (0 : ℚ) < 1024)]

/-- Claim C4: when the input fails to parse, each tree-based stage (the
unused-definition pruner, the similar-element grouper, the nonessential-
element remover and the maximum-aggression transform) returns its input
string unchanged; being plain functions into `String`, no exception can
escape them. -/
theorem stages_fail_soft (s : String) (h : parse s = none) :
    remove_unused_defs s = s ∧ group_similar_elements s = s ∧
    remove_nonessential_elements s = s ∧ optimize_maximum s = s := by
  unfold remove_unused_defs group_similar_elements
    remove_nonessential_elements optimize_maximum
  rw [h]
  exact ⟨rfl, rfl, rfl, rfl⟩

/-- Witness for C4 at the unterminated-tag input `"<svg"`. -/
theorem stages_fail_soft_witness :
    parse "<svg" = none ∧
    (remove_unused_defs "<svg" = "<svg" ∧ group_similar_elements "<svg" = "<svg" ∧
     remove_nonessential_elements "<svg" = "<svg" ∧ optimize_maximum "<svg" = "<svg") :=
  ⟨rfl, stages_fail_soft "<svg" rfl⟩

/-- Claim C6 (refuted, code bug): on a well-formed document in which three
elements share the same style attribute subset, the similar-element
grouper returns its input string unchanged: the code reaches
`elem.getparent()`, which `xml.etree` elements do not have, and the
swallowed `AttributeError` aborts the transform.  No synthetic group is
ever produced when a bucket qualifies. -/
theorem group_similar_elements_bug :
    (parse "<svg><rect fill=\"red\" /><rect fill=\"red\" /><rect fill=\"red\" /></svg>").map
        hasBigBucket = some true ∧
    group_similar_elements
        "<svg><rect fill=\"red\" /><rect fill=\"red\" /><rect fill=\"red\" /></svg>" =
      "<svg><rect fill=\"red\" /><rect fill=\"red\" /><rect fill=\"red\" /></svg>" :=
  ⟨by rfl, rfl⟩

/-- Claim C9 (refuted, code bug): the sanitizer is not idempotent.  On the
well-formed document below, the first pass only strips the `xmlns:dc`
declaration (the metadata regex requires the literal `<metadata>`, which
the attributed start tag is not), and the second pass then removes the
whole metadata element. -/
theorem remove_metadata_not_idempotent :
    remove_metadata
        "<svg xmlns=\"http://www.w3.org/2000/svg\"><metadata xmlns:dc=\"http://a\">y</metadata></svg>" =
      "<svg xmlns=\"http://www.w3.org/2000/svg\"><metadata>y</metadata></svg>" ∧
    remove_metadata "<svg xmlns=\"http://www.w3.org/2000/svg\"><metadata>y</metadata></svg>" =
      "<svg xmlns=\"http://www.w3.org/2000/svg\"></svg>" ∧
    ("<svg xmlns=\"http://www.w3.org/2000/svg\"><metadata>y</metadata></svg>" : String) ≠
      "<svg xmlns=\"http://www.w3.org/2000/svg\"></svg>" :=
  ⟨rfl, rfl, by decide⟩

/-! ## Size monotonicity machinery -/

theorem utf8L_append (a b : List Char) : utf8L (a ++ b) = utf8L a + utf8L b := by
  simp [utf8L]

theorem utf8L_cons (c : Char) (cs : List Char) :
    utf8L (c :: cs) = c.utf8Size + utf8L cs := by
  simp [utf8L]

theorem utf8L_pos (cs : List Char) (h : cs ≠ []) : 1 ≤ utf8L cs := by
  cases cs with
  | nil => exact absurd rfl h
  | cons c cs =>
    have := Char.utf8Size_pos c
    rw [utf8L_cons]
    omega

theorem utf8L_drop_le (n : Nat) (cs : List Char) : utf8L (cs.drop n) ≤ utf8L cs := by
  conv_rhs => rw [← List.take_append_drop n cs]
  rw [utf8L_append]
  omega

theorem utf8L_take_drop (n : Nat) (cs : List Char) :
    utf8L cs = utf8L (cs.take n) + utf8L (cs.drop n) := by
  conv_lhs => rw [← List.take_append_drop n cs]
  exact utf8L_append _ _

theorem utf8L_dropThrough_le (pat : List Char) :
    ∀ (fuel : Nat) (cs r : List Char), dropThrough pat fuel cs = some r →
      utf8L r ≤ utf8L cs := by
  intro fuel
  induction fuel with
  | zero => intro cs r h; simp [dropThrough] at h
  | succ f ih =>
    intro cs r h
    simp only [dropThrough] at h
    split at h
    · cases h
      exact utf8L_drop_le _ _
    · match cs, h with
      | c :: cs2, h =>
        have := ih cs2 r h
        rw [utf8L_cons]
        omega


theorem takeWhile_drop_eq (p : Char → Bool) :
    ∀ cs : List Char, cs.drop (cs.takeWhile p).length = cs.dropWhile p := by
  intro cs
  induction cs with
  | nil => rfl
  | cons c cs ih =>
    by_cases h : p c <;>
      simp [List.takeWhile_cons, List.dropWhile_cons, h, ih]

theorem takeWhile_append_self (p : Char → Bool) (cs : List Char) :
    cs = cs.takeWhile p ++ cs.drop (cs.takeWhile p).length := by
  rw [takeWhile_drop_eq, List.takeWhile_append_dropWhile]

theorem breakQuote_eq (cs v rest : List Char) (h : breakQuote cs = some (v, rest)) :
    cs = v ++ '"' :: rest := by
  unfold breakQuote at h
  split at h
  next r heq =>
    cases h
    conv_lhs => rw [takeWhile_append_self (fun c => c ≠ '"') cs]
    rw [heq]
  next => cases h

theorem utf8L_breakQuote_le (cs v rest : List Char)
    (h : breakQuote cs = some (v, rest)) : utf8L rest ≤ utf8L cs := by
  rw [breakQuote_eq cs v rest h, utf8L_append, utf8L_cons]
  omega

theorem hasPre_eq (p : List Char) :
    ∀ cs : List Char, hasPre p cs = true → cs = p ++ cs.drop p.length := by
  induction p with
  | nil => intro cs _; rfl
  | cons a p ih =>
    intro cs h
    cases cs with
    | nil => simp [hasPre] at h
    | cons c cs =>
      rw [hasPre, Bool.and_eq_true] at h
      obtain ⟨h1, h2⟩ := h
      have : a = c := by simpa using h1
      subst this
      simpa using ih cs h2

theorem subst_utf8L_le (m : Matcher) (hm : MonoMatcher m) :
    ∀ (fuel : Nat) (cs : List Char), utf8L (subst m fuel cs) ≤ utf8L cs := by
  intro fuel
  induction fuel with
  | zero => intro cs; exact le_refl _
  | succ f ih =>
    intro cs
    cases cs with
    | nil => exact le_refl _
    | cons c cs =>
      rw [subst]
      cases hmc : m (c :: cs) with
      | none =>
        rw [utf8L_cons, utf8L_cons]
        exact Nat.add_le_add_left (ih cs) _
      | some pr =>
        obtain ⟨r, rest⟩ := pr
        calc utf8L (r ++ subst m f rest)
            = utf8L r + utf8L (subst m f rest) := utf8L_append _ _
          _ ≤ utf8L r + utf8L rest := Nat.add_le_add_left (ih rest) _
          _ ≤ utf8L (c :: cs) := hm _ _ _ hmc

theorem sub1_utf8L_le (m : Matcher) (hm : MonoMatcher m) (cs : List Char) :
    utf8L (sub1 m cs) ≤ utf8L cs :=
  subst_utf8L_le m hm cs.length cs

theorem matchAlt_le (alts : List (List Char)) :
    ∀ cs r2, matchAlt alts cs = some r2 → utf8L r2 ≤ utf8L cs := by
  induction alts with
  | nil => intro cs r2 h; simp [matchAlt] at h
  | cons a rest ih =>
    intro cs r2 h
    rw [matchAlt] at h
    split at h
    · cases h; exact utf8L_drop_le _ _
    · exact ih cs r2 h

theorem takeWhile_ne_nil_utf8L (p : Char → Bool) (cs : List Char)
    (h : (cs.takeWhile p).isEmpty = false) : 1 ≤ utf8L (cs.takeWhile p) := by
  apply utf8L_pos
  intro hc
  rw [hc] at h
  simp at h

theorem mono_mLit (pat rep : List Char) (h : utf8L rep ≤ utf8L pat) :
    MonoMatcher (mLit pat rep) := by
  intro cs r rest hm
  unfold mLit at hm
  split at hm
  next hp =>
    cases hm
    conv_rhs => rw [hasPre_eq pat cs hp]
    rw [utf8L_append]
    omega
  next => cases hm

theorem mono_mSpan (a b : List Char) : MonoMatcher (mSpan a b) := by
  intro cs r rest hm
  unfold mSpan at hm
  split at hm
  · split at hm
    next heq =>
      cases hm
      have h1 := utf8L_dropThrough_le b _ _ _ heq
      have h2 := utf8L_drop_le a.length cs
      simpa [utf8L] using le_trans h1 h2
    next => cases hm
  · cases hm

theorem mono_mXmlnsDecl : MonoMatcher mXmlnsDecl := by
  intro cs r rest hm
  simp only [mXmlnsDecl] at hm
  split at hm
  · cases hm
  · split at hm
    · split at hm
      · split at hm
        · split at hm
          · split at hm
            · cases hm
            · cases hm
              rename_i hw hpre x1 r2 r3 hma x2 v hv hbq
              have h1 := utf8L_breakQuote_le _ _ _ hbq
              have h2 := matchAlt_le editorPres _ _ hma
              have h3 := utf8L_drop_le 6 (List.drop (List.takeWhile pyWs cs).length cs)
              have h4 := utf8L_drop_le (List.takeWhile pyWs cs).length cs
              rw [utf8L_cons, utf8L_cons] at h2
              have h0 : utf8L ([] : List Char) = 0 := rfl
              rw [h0]
              omega
          · cases hm
        · cases hm
      · cases hm
    · cases hm

theorem mono_mEditorAttr : MonoMatcher mEditorAttr := by
  intro cs r rest hm
  simp only [mEditorAttr] at hm
  split at hm
  · cases hm
  · split at hm
    · split at hm
      · split at hm
        · cases hm
        · split at hm
          · split at hm
            · split at hm
              · cases hm
              · cases hm
                rename_i x1 rr hma junk a as hnm x2 r4 hr4 x3 v hv hbq
                have h1 := utf8L_breakQuote_le _ _ _ hbq
                have h2 := matchAlt_le editorPres _ _ hma
                have h3 : utf8L r4 ≤ utf8L rr := by
                  have h5 := utf8L_drop_le (List.takeWhile isLowerDash rr).length rr
                  rw [hr4, utf8L_cons, utf8L_cons] at h5
                  omega
                have h4 := utf8L_drop_le (List.takeWhile pyWs cs).length cs
                rw [utf8L_cons] at h2
                have h0 : utf8L ([] : List Char) = 0 := rfl
                rw [h0]
                omega
            · cases hm
          · cases hm
      · cases hm
    · cases hm

theorem mono_mWsCollapse : MonoMatcher mWsCollapse := by
  intro cs r rest hm
  simp only [mWsCollapse] at hm
  split at hm
  · cases hm
  · cases hm
    rename_i hne
    have hw : 1 ≤ utf8L (cs.takeWhile pyWs) :=
      utf8L_pos _ (fun hc => hne (by rw [hc]; rfl))
    conv_rhs => rw [takeWhile_append_self pyWs cs]
    rw [utf8L_append]
    have h1 : utf8L [' '] = 1 := rfl
    omega

theorem mono_mGtWsLt : MonoMatcher mGtWsLt := by
  intro cs r rest hm
  simp only [mGtWsLt] at hm
  split at hm
  · split at hm
    · cases hm
    · split at hm
      · cases hm
        rename_i cs1 hne x1 heq
        have hw : 1 ≤ utf8L (cs1.takeWhile pyWs) :=
          utf8L_pos _ (fun hc => hne (by rw [hc]; rfl))
        have hsplit : utf8L cs1 = utf8L (cs1.takeWhile pyWs) +
            utf8L (cs1.drop (cs1.takeWhile pyWs).length) := by
          conv_lhs => rw [takeWhile_append_self pyWs cs1]
          exact utf8L_append _ _
        have h2 : ('>').utf8Size = 1 := rfl
        have h3 : ('<').utf8Size = 1 := rfl
        rw [heq, utf8L_cons, h3] at hsplit
        have h1 : utf8L ['>', '<'] = 2 := rfl
        have hg : utf8L ('>' :: cs1) = 1 + utf8L cs1 := by rw [utf8L_cons, h2]
        rw [h1, hg]
        omega
      · cases hm
  · cases hm

theorem mono_mQuoteWs : MonoMatcher mQuoteWs := by
  intro cs r rest hm
  simp only [mQuoteWs] at hm
  split at hm
  · split at hm
    · cases hm
    · cases hm
      rename_i cs1 hne
      have hw : 1 ≤ utf8L (cs1.takeWhile pyWs) :=
        utf8L_pos _ (fun hc => hne (by rw [hc]; rfl))
      have hsplit : utf8L cs1 = utf8L (cs1.takeWhile pyWs) +
          utf8L (cs1.drop (cs1.takeWhile pyWs).length) := by
        conv_lhs => rw [takeWhile_append_self pyWs cs1]
        exact utf8L_append _ _
      have h2 : ('"').utf8Size = 1 := rfl
      have h1 : utf8L ['"'] = 1 := rfl
      have hg : utf8L ('"' :: cs1) = 1 + utf8L cs1 := by rw [utf8L_cons, h2]
      rw [h1, hg]
      omega
  · cases hm

theorem mono_mWsEqQuote : MonoMatcher mWsEqQuote := by
  intro cs r rest hm
  simp only [mWsEqQuote] at hm
  split at hm
  · cases hm
  · split at hm
    · cases hm
      rename_i hne x1 heq
      have hw : 1 ≤ utf8L (cs.takeWhile pyWs) :=
        utf8L_pos _ (fun hc => hne (by rw [hc]; rfl))
      have hsplit : utf8L cs = utf8L (cs.takeWhile pyWs) +
          utf8L (cs.drop (cs.takeWhile pyWs).length) := by
        conv_lhs => rw [takeWhile_append_self pyWs cs]
        exact utf8L_append _ _
      have h2 : ('=').utf8Size = 1 := rfl
      have h3 : ('"').utf8Size = 1 := rfl
      rw [heq, utf8L_cons, utf8L_cons, h2, h3] at hsplit
      have h1 : utf8L ['=', '"'] = 2 := rfl
      rw [h1]
      omega
    · cases hm

theorem mono_mWsVersion : MonoMatcher mWsVersion := by
  intro cs r rest hm
  simp only [mWsVersion] at hm
  split at hm
  · cases hm
  · split at hm
    · split at hm
      · split at hm
        · cases hm
        · cases hm
          rename_i hne hpre x1 v hv hbq
          have h1 := utf8L_breakQuote_le _ _ _ hbq
          have h2 := utf8L_drop_le 9 (cs.drop (cs.takeWhile pyWs).length)
          have h3 := utf8L_drop_le (cs.takeWhile pyWs).length cs
          have h0 : utf8L ([] : List Char) = 0 := rfl
          rw [h0]
          omega
      · cases hm
    · cases hm

theorem mono_mWsAttrStar (name : List Char) : MonoMatcher (mWsAttrStar name) := by
  intro cs r rest hm
  simp only [mWsAttrStar] at hm
  split at hm
  · cases hm
  · split at hm
    · split at hm
      · cases hm
        rename_i hne hpre x1 v hbq
        have h1 := utf8L_breakQuote_le _ _ _ hbq
        have h2 := utf8L_drop_le (name.length + 2) (cs.drop (cs.takeWhile pyWs).length)
        have h3 := utf8L_drop_le (cs.takeWhile pyWs).length cs
        have h0 : utf8L ([] : List Char) = 0 := rfl
        rw [h0]
        omega
      · cases hm
    · cases hm

theorem utf8L_dropWhile_le (p : Char → Bool) (cs : List Char) :
    utf8L (cs.dropWhile p) ≤ utf8L cs := by
  conv_rhs => rw [← List.takeWhile_append_dropWhile p cs]
  rw [utf8L_append]
  omega

theorem utf8L_reverse (cs : List Char) : utf8L cs.reverse = utf8L cs := by
  simp [utf8L, List.map_reverse, List.sum_reverse]

theorem utf8L_pyStrip_le (cs : List Char) : utf8L (pyStrip cs) ≤ utf8L cs := by
  unfold pyStrip
  rw [utf8L_reverse]
  calc utf8L (((cs.dropWhile pyWs).reverse).dropWhile pyWs)
      ≤ utf8L (cs.dropWhile pyWs).reverse := utf8L_dropWhile_le _ _
    _ = utf8L (cs.dropWhile pyWs) := utf8L_reverse _
    _ ≤ utf8L cs := utf8L_dropWhile_le _ _

/-- Claim C5 (amended): the purely textual removal stages never increase
the UTF-8 size: the sanitizer `remove_metadata`, the minifier
`minify_svg` and the attribute remover `_remove_unnecessary_attributes`
are size-nonincreasing on every input.  (The path-precision reducer is
not: see the counterexample.) -/
theorem stage_size_monotonicity (s : String) :
    utf8Len (remove_metadata s) ≤ utf8Len s ∧
    utf8Len (minify_svg s) ≤ utf8Len s ∧
    utf8Len (remove_unnecessary_attributes s) ≤ utf8Len s := by
  refine ⟨?_, ?_, ?_⟩
  · show utf8L (sub1 mEditorAttr (sub1 mXmlnsDecl
      (sub1 (mSpan "<!--".data "-->".data)
        (sub1 (mSpan "<metadata>".data "</metadata>".data) s.data)))) ≤ utf8L s.data
    exact le_trans (sub1_utf8L_le _ mono_mEditorAttr _)
      (le_trans (sub1_utf8L_le _ mono_mXmlnsDecl _)
        (le_trans (sub1_utf8L_le _ (mono_mSpan _ _) _)
          (sub1_utf8L_le _ (mono_mSpan _ _) _)))
  · show utf8L (pyStrip (sub1 (mLit "stroke-width=\"1\"".data "stroke-width=\"1\"".data)
      (sub1 mWsVersion (sub1 mWsEqQuote (sub1 mQuoteWs
        (sub1 mGtWsLt (sub1 mWsCollapse s.data))))))) ≤ utf8L s.data
    exact le_trans (utf8L_pyStrip_le _)
      (le_trans (sub1_utf8L_le _ (mono_mLit _ _ (le_refl _)) _)
        (le_trans (sub1_utf8L_le _ mono_mWsVersion _)
          (le_trans (sub1_utf8L_le _ mono_mWsEqQuote _)
            (le_trans (sub1_utf8L_le _ mono_mQuoteWs _)
              (le_trans (sub1_utf8L_le _ mono_mGtWsLt _)
                (sub1_utf8L_le _ mono_mWsCollapse _))))))
  · show utf8L (sub1 (mLit "stroke-linejoin=\"miter\"".data [])
      (sub1 (mLit "stroke-linecap=\"butt\"".data [])
        (sub1 (mLit "stroke-width=\"1\"".data "stroke-width=\"1\"".data)
          (sub1 (mLit "stroke-opacity=\"1\"".data [])
            (sub1 (mLit "fill-opacity=\"1\"".data [])
              (sub1 (mLit "opacity=\"1\"".data [])
                (sub1 (mWsAttrStar "class".data)
                  (sub1 (mWsAttrStar "id".data) s.data)))))))) ≤ utf8L s.data
    exact le_trans (sub1_utf8L_le _ (mono_mLit _ _ (Nat.zero_le _)) _)
      (le_trans (sub1_utf8L_le _ (mono_mLit _ _ (Nat.zero_le _)) _)
        (le_trans (sub1_utf8L_le _ (mono_mLit _ _ (le_refl _)) _)
          (le_trans (sub1_utf8L_le _ (mono_mLit _ _ (Nat.zero_le _)) _)
            (le_trans (sub1_utf8L_le _ (mono_mLit _ _ (Nat.zero_le _)) _)
              (le_trans (sub1_utf8L_le _ (mono_mLit _ _ (Nat.zero_le _)) _)
                (le_trans (sub1_utf8L_le _ (mono_mWsAttrStar _) _)
                  (sub1_utf8L_le _ (mono_mWsAttrStar _) _)))))))

/-- Counterexample to claim C5 as stated: the path-precision reducer is a
pipeline stage (it is applied by levels 1, 2 and 4), and it increases the
UTF-8 size of `d=".5"`: `round('.5', 2)` renders as `0.5`, one byte
longer. -/
theorem simplify_paths_can_grow :
    simplify_paths "d=\".5\"" 2 = some "d=\"0.5\"" ∧
    ¬ (utf8Len "d=\"0.5\"" ≤ utf8Len "d=\".5\"") :=
  ⟨by decide, by decide⟩

theorem letters_append (a b : List Char) :
    letters (a ++ b) = letters a ++ letters b := by
  simp [letters, List.filter_append]

theorem letters_cons_yes (c : Char) (cs : List Char) (h : isAsciiLetter c = true) :
    letters (c :: cs) = c :: letters cs := by
  simp [letters, List.filter_cons, h]

theorem letters_cons_no (c : Char) (cs : List Char) (h : isAsciiLetter c = false) :
    letters (c :: cs) = letters cs := by
  simp [letters, List.filter_cons, h]

theorem not_letter_of_digit (c : Char) (h : isDigitC c = true) :
    isAsciiLetter c = false := by
  unfold isDigitC at h
  rw [Bool.and_eq_true, decide_eq_true_iff, decide_eq_true_iff] at h
  obtain ⟨h1, h2⟩ := h
  unfold isAsciiLetter
  have hA : ¬ ('A' ≤ c) := fun hA => absurd (le_trans hA h2) (by decide)
  have ha : ¬ ('a' ≤ c) := fun ha => absurd (le_trans ha h2) (by decide)
  simp [hA, ha]

theorem letters_takeWhile_digits (xs : List Char) :
    letters (xs.takeWhile isDigitC) = [] := by
  induction xs with
  | nil => rfl
  | cons c cs ih =>
    rw [List.takeWhile_cons]
    split
    next h => rw [letters_cons_no c _ (not_letter_of_digit c h)]; exact ih
    next => rfl

theorem letters_sublist_nil {a b : List Char} (hs : List.Sublist a b)
    (hb : letters b = []) : letters a = [] :=
  List.sublist_nil.mp (hb ▸ hs.filter isAsciiLetter)

theorem letters_replicate_zero (k : Nat) :
    letters (List.replicate k '0') = [] := by
  induction k with
  | zero => rfl
  | succ n ih =>
    rw [List.replicate_succ, letters_cons_no _ _ (by decide)]
    exact ih

theorem letters_natStrGo (f : Nat) : ∀ n, letters (natStrGo f n) = [] := by
  induction f with
  | zero => intro n; rfl
  | succ f ih =>
    intro n
    rw [natStrGo]
    have hd : ∀ m, isAsciiLetter (digitChar m) = false := by
      intro m
      unfold digitChar
      split <;> decide
    split
    · rw [letters_cons_no _ _ (hd n)]
      rfl
    · rw [letters_append, ih, letters_cons_no _ _ (hd (n % 10))]
      rfl

theorem letters_natStr (n : Nat) : letters (natStr n) = [] :=
  letters_natStrGo _ _

theorem letters_stripZeros (cs : List Char) (h : letters cs = []) :
    letters (stripZeros cs) = [] := by
  unfold stripZeros
  have h1 : letters cs.reverse = [] := by
    simpa [letters, List.filter_reverse] using congrArg List.reverse h
  have h2 : letters (cs.reverse.dropWhile (fun c => c = '0')) = [] :=
    letters_sublist_nil (List.dropWhile_sublist _) h1
  simpa [letters, List.filter_reverse] using congrArg List.reverse h2

theorem letters_numStrZ (p : Nat) (z : ℤ) : letters (numStrZ p z) = [] := by
  unfold numStrZ intStr
  have hdot : isAsciiLetter '.' = false := by decide
  have hdash : isAsciiLetter '-' = false := by decide
  have hpad : letters (stripZeros (padZeros p (natStr (z.natAbs % 10 ^ p)))) = [] := by
    apply letters_stripZeros
    unfold padZeros
    rw [letters_append, letters_replicate_zero, letters_natStr]
    rfl
  have hm1 : letters ['-'] = [] := rfl
  split
  · split
    · rw [letters_append, hm1, letters_natStr]; rfl
    · simpa using letters_natStr z.natAbs
  · split
    · split
      · rw [letters_append, hm1, letters_natStr]; rfl
      · simpa using letters_natStr (z.natAbs / 10 ^ p)
    · split
      · rw [letters_append, letters_append, hm1, letters_natStr,
          letters_cons_no _ _ hdot, hpad]
        rfl
      · rw [letters_append, letters_append, letters_natStr,
          letters_cons_no _ _ hdot, hpad]
        rfl

theorem letters_replaceNumber (p : Nat) (span r : List Char)
    (h : replaceNumber p span = some r) : letters r = [] := by
  unfold replaceNumber at h
  split at h
  · cases h
  · cases h
    exact letters_numStrZ _ _

/-- `numSpanCore` consumes exactly its returned span, and the span
consists of digits and at most one dot: it contains no letters. -/
theorem numSpanCore_decomp (cs1 span rest : List Char)
    (h : numSpanCore cs1 = some (span, rest)) :
    cs1 = span ++ rest ∧ letters span = [] := by
  unfold numSpanCore at h
  split at h
  next hd1 =>
    split at h
    next cs3 hdrop =>
      split at h
      next => cases h
      next c d2 hd2 =>
        cases h
        have hcs3 : cs3 = (c :: d2) ++ cs3.drop (c :: d2).length := by
          conv_lhs => rw [takeWhile_append_self isDigitC cs3]
          rw [hd2]
        have hlet : letters ('.' :: c :: d2) = [] := by
          have := letters_takeWhile_digits cs3
          rw [hd2] at this
          rw [letters_cons_no _ _ (by decide)]
          exact this
        refine ⟨?_, hlet⟩
        conv_lhs => rw [takeWhile_append_self isDigitC cs1]
        rw [hdrop, hd1, List.nil_append]
        conv_lhs => rw [hcs3]
        simp
    next => cases h
  next a d1 hd1 =>
    split at h
    next cs3 hdrop =>
      split at h
      next hd2 =>
        cases h
        refine ⟨?_, ?_⟩
        · conv_lhs => rw [takeWhile_append_self isDigitC cs1]
          rw [hd1]
        · have := letters_takeWhile_digits cs1
          rw [hd1] at this
          exact this
      next c d2 hd2 =>
        cases h
        have hcs3 : cs3 = (c :: d2) ++ cs3.drop (c :: d2).length := by
          conv_lhs => rw [takeWhile_append_self isDigitC cs3]
          rw [hd2]
        refine ⟨?_, ?_⟩
        · conv_lhs => rw [takeWhile_append_self isDigitC cs1]
          rw [hdrop, hd1]
          conv_lhs => rw [hcs3]
          simp
        · have h1 := letters_takeWhile_digits cs1
          rw [hd1] at h1
          have h2 := letters_takeWhile_digits cs3
          rw [hd2] at h2
          rw [letters_append, h1, letters_cons_no _ _ (by decide), h2]
          rfl
    next =>
      cases h
      refine ⟨?_, ?_⟩
      · conv_lhs => rw [takeWhile_append_self isDigitC cs1]
        rw [hd1]
      · have := letters_takeWhile_digits cs1
        rw [hd1] at this
        exact this

theorem numSpan_decomp (cs span rest : List Char)
    (h : numSpan cs = some (span, rest)) :
    cs = span ++ rest ∧ letters span = [] := by
  unfold numSpan at h
  split at h
  next t =>
    cases hc : numSpanCore t with
    | none => rw [hc] at h; cases h
    | some sr =>
      rw [hc] at h
      cases h
      obtain ⟨h1, h2⟩ := numSpanCore_decomp t sr.1 sr.2 (by rw [hc])
      refine ⟨?_, ?_⟩
      · rw [List.cons_append]
        conv_lhs => rw [h1]
      · rw [letters_cons_no _ _ (by decide)]
        exact h2
  next t =>
    cases hc : numSpanCore t with
    | none => rw [hc] at h; cases h
    | some sr =>
      rw [hc] at h
      cases h
      obtain ⟨h1, h2⟩ := numSpanCore_decomp t sr.1 sr.2 (by rw [hc])
      refine ⟨?_, ?_⟩
      · rw [List.cons_append]
        conv_lhs => rw [h1]
      · rw [letters_cons_no _ _ (by decide)]
        exact h2
  next =>
    exact numSpanCore_decomp cs span rest h

theorem substE_alpha (m : MatcherE) (hm : AlphaMatcherE m) :
    ∀ (fuel : Nat) (cs out : List Char),
      substE m fuel cs = some out → letters out = letters cs := by
  intro fuel
  induction fuel with
  | zero => intro cs out h; cases h; rfl
  | succ f ih =>
    intro cs out h
    cases cs with
    | nil => cases h; rfl
    | cons c cs =>
      rw [substE] at h
      cases hmc : m (c :: cs) with
      | none =>
        rw [hmc] at h
        obtain ⟨t, ht, rfl⟩ := Option.map_eq_some'.mp h
        cases hc : isAsciiLetter c with
        | true => rw [letters_cons_yes _ _ hc, letters_cons_yes _ _ hc, ih cs t ht]
        | false => rw [letters_cons_no _ _ hc, letters_cons_no _ _ hc, ih cs t ht]
      | some pr =>
        obtain ⟨ro, rest⟩ := pr
        cases ro with
        | none => rw [hmc] at h; cases h
        | some r =>
          rw [hmc] at h
          obtain ⟨t, ht, rfl⟩ := Option.map_eq_some'.mp h
          calc letters (r ++ t)
              = letters r ++ letters t := letters_append _ _
            _ = letters r ++ letters rest := by rw [ih rest t ht]
            _ = letters (r ++ rest) := (letters_append _ _).symm
            _ = letters (c :: cs) := hm _ _ _ hmc

theorem alpha_mNum (p : Nat) : AlphaMatcherE (mNum p) := by
  intro cs r rest hm
  unfold mNum at hm
  split at hm
  next span rest2 hspan =>
    simp only [Option.some.injEq, Prod.mk.injEq] at hm
    obtain ⟨hrepl, hrest⟩ := hm
    subst hrest
    obtain ⟨h1, h2⟩ := numSpan_decomp cs span rest2 hspan
    rw [letters_append, letters_replaceNumber p span r hrepl, h1,
      letters_append, h2]
  next => cases hm

theorem alpha_mDSeg (p : Nat) : AlphaMatcherE (mDSeg p) := by
  intro cs r rest hm
  unfold mDSeg at hm
  split at hm
  · split at hm
    next => cases hm
    next =>
      split at hm
      next v2 hsub =>
        rename_i hpre x2 v rest2 hne hbq x3
        simp only [Option.some.injEq, Prod.mk.injEq] at hm
        obtain ⟨hr, hrest⟩ := hm
        subst hrest
        subst hr
        have hcs : cs = "d=\"".data ++ cs.drop 3 := by
          simpa using hasPre_eq "d=\"".data cs hpre
        have hdr : cs.drop 3 = v ++ '"' :: rest2 := breakQuote_eq _ _ _ hbq
        conv_rhs => rw [hcs, hdr]
        have hv2 : letters v2 = letters v :=
          substE_alpha (mNum p) (alpha_mNum p) v.length v v2 hsub
        have hq : letters ['"'] = [] := rfl
        rw [letters_append, letters_append, letters_append, letters_append,
          hv2, hq]
        have hq2 : letters ('"' :: rest2) = letters rest2 :=
          letters_cons_no _ _ (by decide)
        rw [letters_append, hq2]
        simp
      next hsub => simp at hm
    next => cases hm
  · cases hm

/-- `substE` returns its input when a hereditary predicate rules out
every match. -/
theorem substE_id (m : MatcherE) (q : List Char → Bool)
    (hq : ∀ c cs, q (c :: cs) = true → q cs = true)
    (hm : ∀ cs, q cs = true → m cs = none) :
    ∀ (fuel : Nat) (cs : List Char), q cs = true → substE m fuel cs = some cs := by
  intro fuel
  induction fuel with
  | zero => intro cs _; rfl
  | succ f ih =>
    intro cs h
    cases cs with
    | nil => rfl
    | cons c cs =>
      rw [substE, hm _ h]
      rw [ih cs (hq c cs h)]
      rfl

theorem hasPre_false_of_hasSub_false (pat cs : List Char)
    (h : hasSub pat cs = false) : hasPre pat cs = false := by
  cases cs with
  | nil => exact h
  | cons c cs =>
    rw [hasSub, Bool.or_eq_false_iff] at h
    exact h.1

theorem hasSub_tail_false (pat : List Char) (c : Char) (cs : List Char)
    (h : hasSub pat (c :: cs) = false) : hasSub pat cs = false := by
  rw [hasSub, Bool.or_eq_false_iff] at h
  exact h.2

theorem mDSeg_none_of_noSub (p : Nat) (cs : List Char)
    (h : hasSub "d=\"".data cs = false) : mDSeg p cs = none := by
  unfold mDSeg
  rw [hasPre_false_of_hasSub_false _ _ h]
  rfl

/-- Counterexample to claim C8 as stated: `simplify_paths` changes text
outside any `d` attribute.  The document below has no `d` attribute at
all, yet the value of its `id` attribute is rewritten, because the regex
`d="([^"]+)"` also matches the final letter of the attribute name `id`
followed by its opening quote. -/
theorem simplify_paths_touches_id_attr :
    simplify_paths "<g id=\"10.126\" />" 1 = some "<g id=\"10.1\" />" ∧
    ("<g id=\"10.126\" />" : String) ≠ "<g id=\"10.1\" />" :=
  ⟨by decide, by decide⟩

/-- Claim C8 (amended): `simplify_paths` rewrites only the segments
matching `d="..."` — but such a segment may begin inside another
attribute whose name ends in `d` (such as `id`), whose value is then
rewritten too.  Whenever the function returns (no matched literal
overflows `float`, else the `OverflowError` propagates, modelled by
`none`), every ASCII letter of the text (in particular every path
command letter) is preserved in order, and an input containing no `d="`
at all is returned unchanged.  The precision bound keeps the model
inside the range where Python's `str` of the rounded value uses plain
decimal notation. -/
theorem simplify_paths_segments (s : String) (p : Nat) (_hp : p ≤ 4) :
    (∀ out, simplify_paths s p = some out → letters out.data = letters s.data) ∧
    (hasSub "d=\"".data s.data = false → simplify_paths s p = some s) := by
  constructor
  · intro out hout
    unfold simplify_paths at hout
    obtain ⟨cs2, hcs2, rfl⟩ := Option.map_eq_some'.mp hout
    show letters cs2 = letters s.data
    exact substE_alpha _ (alpha_mDSeg p) _ _ _ hcs2
  · intro h
    show (sub1E (mDSeg p) s.data).map (fun cs => (⟨cs⟩ : String)) = some s
    rw [sub1E, substE_id (mDSeg p) (fun cs => !(hasSub "d=\"".data cs))
      (fun c cs hc => by
        rw [Bool.not_eq_true'] at hc ⊢
        exact hasSub_tail_false _ c cs hc)
      (fun cs hc => by
        rw [Bool.not_eq_true'] at hc
        exact mDSeg_none_of_noSub p cs hc)
      s.data.length s.data (by rw [Bool.not_eq_true', h])]
    rfl

/-- Witness for the amended C8 at precision 1 on a real path. -/
theorem simplify_paths_segments_witness :
    1 ≤ 4 ∧
    ((∀ out, simplify_paths "<path d=\"M 1.55 2\" />" 1 = some out →
        letters out.data = letters "<path d=\"M 1.55 2\" />".data) ∧
      (hasSub "d=\"".data "<path d=\"M 1.55 2\" />".data = false →
        simplify_paths "<path d=\"M 1.55 2\" />" 1 = some "<path d=\"M 1.55 2\" />")) :=
  ⟨by decide, simplify_paths_segments "<path d=\"M 1.55 2\" />" 1 (by decide)⟩

theorem hasPre_self_append (p t : List Char) : hasPre p (p ++ t) = true := by
  induction p with
  | nil => rfl
  | cons c cs ih => simp [hasPre, ih]

theorem takeWhile_append_nomatch (q : Char → Bool) (v : List Char) (c : Char)
    (w : List Char) (hv : v.all q = true) (hc : q c = false) :
    List.takeWhile q (v ++ c :: w) = v := by
  induction v with
  | nil => simp [List.takeWhile_cons, hc]
  | cons x xs ih =>
    rw [List.all_cons, Bool.and_eq_true] at hv
    simp [List.takeWhile_cons, hv.1, ih hv.2]

theorem breakQuote_exact (v w : List Char) (hv : v.all (fun c => c ≠ '"') = true) :
    breakQuote (v ++ '"' :: w) = some (v, w) := by
  unfold breakQuote
  rw [takeWhile_append_nomatch _ v '"' w hv (by simp), List.drop_left]
  rfl

/-- At any position where a whitespace-preceded `name="v"` attribute
begins, the attribute matcher of `_remove_unnecessary_attributes`
matches and deletes the attribute for EVERY continuation `w` of the
text: its decision is independent of what follows the closing quote, in
particular of whether the id is referenced later via `url(#id)`. -/
theorem mWsAttrStar_unconditional (name v w : List Char)
    (hn : name ≠ []) (hh : pyWs name.head! = false)
    (hv : v.all (fun c => c ≠ '"') = true) :
    mWsAttrStar name (' ' :: name ++ '=' :: '"' :: v ++ '"' :: w) = some ([], w) := by
  cases name with
  | nil => exact absurd rfl hn
  | cons nh nt =>
    have hh2 : pyWs nh = false := hh
    have hsp : pyWs ' ' = true := by decide
    have hws : List.takeWhile pyWs (' ' :: nh :: (nt ++ '=' :: '"' :: (v ++ '"' :: w)))
        = [' '] := by
      simp [List.takeWhile_cons, hh2, hsp]
    have hpre : hasPre (nh :: (nt ++ ['=', '"']))
        (nh :: (nt ++ '=' :: '"' :: (v ++ '"' :: w))) = true := by
      have hshape : nh :: (nt ++ '=' :: '"' :: (v ++ '"' :: w))
          = (nh :: (nt ++ ['=', '"'])) ++ (v ++ '"' :: w) := by simp
      rw [hshape]
      exact hasPre_self_append _ _
    unfold mWsAttrStar
    simp [hws, hsp, hpre, breakQuote_exact v w hv]

/-- Counterexample to claim C10 as stated: level 2 removes each
whitespace-preceded `id="…"` match of a single left-to-right scan, but
the deletion can splice the surrounding text into a new `id="…"`
attribute occurrence, which is not rescanned.  On the input below the
output still contains the whitespace-preceded attribute text ` id="q"`,
so the output of level 2 is not always free of id attributes. -/
theorem level2_can_leave_id_attr :
    optimize_level_2 " i id=\"x\"d=\"q\"" = some " id=\"q\"" ∧
    strHasSub " id=\"q\"" " id=\"" = true :=
  ⟨by decide, by decide⟩

/-- Claim C10 (amended): `_remove_unnecessary_attributes` deletes every
whitespace-preceded `id="…"`/`class="…"` attribute found in one scan
unconditionally — for every quote-free value `v` and EVERY continuation
`w` of the text, the id and class matchers at an attribute site match
and delete the attribute, so their decision cannot depend on whether the
id is still referenced through `url(#id)` later, and such references are
left dangling; the absence of id/class attributes in the output holds
only for attribute occurrences that are not re-created by splicing (the
counterexample shows the general claim fails).  On the concrete document
the referenced gradient id `grad1` and the rect's id and class are all
deleted while the `url(#grad1)` reference text survives unchanged. -/
theorem level2_deletes_referenced_ids (v w : List Char)
    (hv : v.all (fun c => c ≠ '"') = true) :
    mWsAttrStar "id".data (' ' :: "id".data ++ '=' :: '"' :: v ++ '"' :: w)
      = some ([], w) ∧
    mWsAttrStar "class".data (' ' :: "class".data ++ '=' :: '"' :: v ++ '"' :: w)
      = some ([], w) ∧
    optimize_level_2
        "<svg><defs><linearGradient id=\"grad1\" /></defs><rect id=\"r1\" class=\"c\" fill=\"url(#grad1)\" opacity=\"1\" /></svg>" =
      some "<svg><defs><linearGradient /></defs><rect fill=\"url(#grad1)\"  /></svg>" ∧
    strHasSub
      "<svg><defs><linearGradient id=\"grad1\" /></defs><rect id=\"r1\" class=\"c\" fill=\"url(#grad1)\" opacity=\"1\" /></svg>"
      "url(#grad1)" = true ∧
    strHasSub "<svg><defs><linearGradient /></defs><rect fill=\"url(#grad1)\"  /></svg>"
      "url(#grad1)" = true ∧
    strHasSub "<svg><defs><linearGradient /></defs><rect fill=\"url(#grad1)\"  /></svg>"
      " id=\"" = false ∧
    strHasSub "<svg><defs><linearGradient /></defs><rect fill=\"url(#grad1)\"  /></svg>"
      " class=\"" = false :=
  ⟨mWsAttrStar_unconditional "id".data v w (by decide) (by decide) hv,
   mWsAttrStar_unconditional "class".data v w (by decide) (by decide) hv,
   by decide, by decide, by decide, by decide, by decide⟩

theorem level2_deletes_referenced_ids_witness :
    ("grad1".data.all (fun c => c ≠ '"') = true) ∧
    (mWsAttrStar "id".data
        (' ' :: "id".data ++ '=' :: '"' :: "grad1".data ++ '"' :: " />".data)
      = some ([], " />".data) ∧
    mWsAttrStar "class".data
        (' ' :: "class".data ++ '=' :: '"' :: "grad1".data ++ '"' :: " />".data)
      = some ([], " />".data) ∧
    optimize_level_2
        "<svg><defs><linearGradient id=\"grad1\" /></defs><rect id=\"r1\" class=\"c\" fill=\"url(#grad1)\" opacity=\"1\" /></svg>" =
      some "<svg><defs><linearGradient /></defs><rect fill=\"url(#grad1)\"  /></svg>" ∧
    strHasSub
      "<svg><defs><linearGradient id=\"grad1\" /></defs><rect id=\"r1\" class=\"c\" fill=\"url(#grad1)\" opacity=\"1\" /></svg>"
      "url(#grad1)" = true ∧
    strHasSub "<svg><defs><linearGradient /></defs><rect fill=\"url(#grad1)\"  /></svg>"
      "url(#grad1)" = true ∧
    strHasSub "<svg><defs><linearGradient /></defs><rect fill=\"url(#grad1)\"  /></svg>"
      " id=\"" = false ∧
    strHasSub "<svg><defs><linearGradient /></defs><rect fill=\"url(#grad1)\"  /></svg>"
      " class=\"" = false) :=
  ⟨by decide, level2_deletes_referenced_ids "grad1".data " />".data (by decide)⟩

/-- Counterexample to claim C1 as stated: the controller is claimed never
to raise an exception, but on an over-budget document whose `d` attribute
holds a numeral beyond the binary64 overflow threshold, level 1 reaches
`int(float('inf'))` inside `simplify_paths` and the `OverflowError`
propagates out of `optimize` (modelled by `none`): no result pair is
returned. -/
theorem optimize_can_raise : optimize bigD (1 / 4) = none := by
  have hm : remove_metadata bigD = bigD := by decide
  have hv : (validate_size bigD (1 / 4)).1 = false := by
    show decide ((utf8Len bigD : ℚ) / 1024 ≤ 1 / 4) = false
    rw [show utf8Len bigD = 344 from by decide]
    rw [decide_eq_false_iff_not]
    norm_num
  have hl1 : optimize_level_1 bigD = none := by decide
  show (if (validate_size (remove_metadata bigD) (1 / 4)).1 then
      some (remove_metadata bigD, (validate_size (remove_metadata bigD) (1 / 4)).2)
    else runLevels (1 / 4) optimization_levels (remove_metadata bigD)) = none
  rw [hm, hv, if_neg (by simp)]
  simp only [optimization_levels, runLevels, hl1]

/-- Claim C1 (amended): the escalation controller first sanitizes and
returns immediately on compliance; otherwise it applies levels 1–4 in
this fixed order, re-measuring after each and returning immediately on
compliance; otherwise it applies the maximum-aggression transform exactly
once.  This is the content of its equality with the spec-side chain
`escalationSpec`, whose stage counter never exceeds 5; whenever a pair is
returned, its number is the measured size of the returned text.  The
controller does not, however, return on every input: a level whose path
simplification overflows raises `OverflowError` (`none`), which cuts both
chains short at the same point. -/
theorem optimize_escalation (s : String) (kb : ℚ) (_hkb : 0 < kb) :
    optimize s kb = (escalationSpec s kb).map (fun t => (t.1, t.2.1)) ∧
    (∀ t, escalationSpec s kb = some t → t.2.2 ≤ 5) ∧
    (∀ r, optimize s kb = some r → r.2 = (validate_size r.1 kb).2) := by
  refine ⟨?_, ?_, ?_⟩
  · unfold optimize escalationSpec
    simp only [runLevels, optimization_levels]
    split_ifs with h0
    · rfl
    · cases optimize_level_1 (remove_metadata s) with
      | none => rfl
      | some s1 =>
        dsimp only
        split_ifs with hv1
        · rfl
        · cases optimize_level_2 s1 with
          | none => rfl
          | some s2 =>
            dsimp only
            split_ifs with hv2
            · rfl
            · cases optimize_level_3 s2 with
              | none => rfl
              | some s3 =>
                dsimp only
                split_ifs with hv3
                · rfl
                · cases optimize_level_4 s3 with
                  | none => rfl
                  | some s4 =>
                    dsimp only
                    split_ifs with hv4 <;> rfl
  · intro t ht
    unfold escalationSpec at ht
    dsimp only at ht
    split_ifs at ht with h0
    · cases ht; simp
    · split at ht
      next => cases ht
      next s1 h1 =>
        split_ifs at ht with hv1
        · cases ht; simp
        · split at ht
          next => cases ht
          next s2 h2 =>
            split_ifs at ht with hv2
            · cases ht; simp
            · split at ht
              next => cases ht
              next s3 h3 =>
                split_ifs at ht with hv3
                · cases ht; simp
                · split at ht
                  next => cases ht
                  next s4 h4 =>
                    split_ifs at ht with hv4
                    · cases ht; simp
                    · cases ht; simp
  · intro r hr
    unfold optimize at hr
    simp only [runLevels, optimization_levels] at hr
    split_ifs at hr with h0
    · cases hr; rfl
    · split at hr
      next => cases hr
      next s1 h1 =>
        split_ifs at hr with hv1
        · cases hr; rfl
        · split at hr
          next => cases hr
          next s2 h2 =>
            split_ifs at hr with hv2
            · cases hr; rfl
            · split at hr
              next => cases hr
              next s3 h3 =>
                split_ifs at hr with hv3
                · cases hr; rfl
                · split at hr
                  next => cases hr
                  next s4 h4 =>
                    split_ifs at hr with hv4
                    · cases hr; rfl
                    · cases hr; rfl

/-- Witness for the amended C1 at the document `<svg/>` and budget 1 KB. -/
theorem optimize_escalation_witness :
    (0 : ℚ) < 1 ∧
    (optimize "<svg/>" 1 = (escalationSpec "<svg/>" 1).map (fun t => (t.1, t.2.1)) ∧
     (∀ t, escalationSpec "<svg/>" 1 = some t → t.2.2 ≤ 5) ∧
     (∀ r, optimize "<svg/>" 1 = some r → r.2 = (validate_size r.1 1).2)) :=
  ⟨by norm_num, optimize_escalation "<svg/>" 1 (by norm_num)⟩

theorem pruneF_no_defs (p : XTree → Bool) :
    ∀ F : XForest, findTagF "defs" F = none → pruneF p F = (F, false)
  | .fnil, _ => rfl
  | .fcons (.node tg a tx tl kids) ts, h => by
    rw [findTagF] at h
    split at h
    · cases h
    next htag =>
      have hX : XTree.tag (.node tg a tx tl kids) = tg := rfl
      rw [hX] at htag
      split at h
      · cases h
      next hnone =>
        have hkids : findTagF "defs" kids = none := hnone
        rw [pruneF, pruneT]
        rw [if_neg (by simpa using htag)]
        rw [pruneF_no_defs p kids hkids]
        simp only []
        rw [if_neg (by simp)]
        rw [pruneF_no_defs p ts h]

theorem pruneF_flag (p : XTree → Bool) :
    ∀ (F : XForest) (d0 : XTree), findTagF "defs" F = some d0 → (pruneF p F).2 = true
  | .fcons (.node tg a tx tl kids) ts, d0, h => by
    rw [findTagF] at h
    split at h
    next htag =>
      have hX : tg = "defs" := by simpa using htag
      rw [pruneF, pruneT, if_pos (by simpa using hX)]
      simp
    next htag =>
      have hX : ¬ tg = "defs" := by simpa using htag
      split at h
      next d1 hsome =>
        have hkids : findTagF "defs" kids = some d1 := hsome
        rw [pruneF, pruneT, if_neg (by simpa using hX)]
        have := pruneF_flag p kids d1 hkids
        simp only []
        rw [if_pos this]
      next hnone =>
        have hkids : findTagF "defs" kids = none := hnone
        rw [pruneF, pruneT, if_neg (by simpa using hX)]
        rw [pruneF_no_defs p kids hkids]
        simp only []
        rw [if_neg (by simp)]
        have := pruneF_flag p ts d0 h
        simpa using this

theorem pruneF_congr (p q : XTree → Bool) (d : XTree)
    (hpq : ∀ c ∈ d.kids.toList, p c = q c) :
    ∀ F : XForest, findTagF "defs" F = some d → pruneF p F = pruneF q F
  | .fcons (.node tg a tx tl kids) ts, h => by
    rw [findTagF] at h
    split at h
    next htag =>
      have hX : tg = "defs" := by simpa using htag
      have hd : XTree.node tg a tx tl kids = d := by
        cases h; rfl
      have hkids : kids.toList = d.kids.toList := by rw [← hd]; rfl
      have hfilter : kids.toList.filter p = kids.toList.filter q := by
        apply List.filter_congr
        intro c hc
        exact hpq c (hkids ▸ hc)
      rw [pruneF, pruneF, pruneT, pruneT, if_pos (by simpa using hX),
        if_pos (by simpa using hX), hfilter]
      simp
    next htag =>
      have hX : ¬ tg = "defs" := by simpa using htag
      split at h
      next d1 hsome =>
        have hd1 : d1 = d := by cases h; rfl
        subst hd1
        have hkids : findTagF "defs" kids = some d1 := hsome
        have hrec := pruneF_congr p q d1 hpq kids hkids
        have hflag := pruneF_flag p kids d1 hkids
        rw [pruneF, pruneF, pruneT, pruneT, if_neg (by simpa using hX),
          if_neg (by simpa using hX), hrec]
        simp only []
        rw [if_pos (by rw [← hrec]; exact hflag)]
        rw [if_pos (show (pruneF q kids).2 = true from hrec ▸ hflag)]
      next hnone =>
        have hkids : findTagF "defs" kids = none := hnone
        have hrec := pruneF_congr p q d hpq ts h
        rw [pruneF, pruneF, pruneT, pruneT, if_neg (by simpa using hX),
          if_neg (by simpa using hX), pruneF_no_defs p kids hkids,
          pruneF_no_defs q kids hkids]
        simp only []
        rw [if_neg (by simp), if_neg (by simp), hrec]

theorem keep_core_eq_spec (t d : XTree) :
    ∀ c ∈ d.kids.toList,
      (fun c =>
        match getAttr "id" c with
        | none => true
        | some a =>
          a = "" || ((collectIds d).filter (refTest (tostringT t))).contains a) c =
      keepSpec t c := by
  intro c hc
  cases hid : getAttr "id" c with
  | none => simp only [keepSpec, hid]
  | some a =>
    simp only [keepSpec, hid]
    by_cases ha : a = ""
    · simp [ha]
    · have hmem : a ∈ collectIds d := by
        unfold collectIds
        exact List.mem_filter.mpr
          ⟨List.mem_filterMap.mpr ⟨c, hc, hid⟩, by simpa using ha⟩
      simp only [decide_eq_false ha, Bool.false_or]
      cases hr : refTest (tostringT t) a with
      | true =>
        exact List.elem_eq_true_of_mem (List.mem_filter.mpr ⟨hmem, hr⟩)
      | false =>
        have hnin : a ∉ (collectIds d).filter (refTest (tostringT t)) := by
          intro hin
          have := (List.mem_filter.mp hin).2
          rw [hr] at this
          cases this
        cases hcon : ((collectIds d).filter (refTest (tostringT t))).contains a with
        | false => rfl
        | true =>
          exact absurd (List.mem_of_elem_eq_true hcon) hnin

/-- Counterexample to claim C2 as stated: the claim requires removal of
every defs child carrying an id for which neither reference pattern
occurs, but the code's `if id_attr:` truthiness guard skips a child
whose id is the empty string.  On the document below the defs child
carries `id=""`, the serialized text contains neither `url(#)` nor
`href="#"`, yet the child is kept — both by the tree-level core and by
the full string-level function. -/
theorem remove_unused_defs_keeps_empty_id :
    getAttr "id" (XTree.node "filter" [("id", "")] "" "" .fnil) = some "" ∧
    refTest (tostringT c2emptyDoc) "" = false ∧
    remove_unused_defs_core c2emptyDoc = c2emptyDoc ∧
    remove_unused_defs (tostring c2emptyDoc) = tostring c2emptyDoc :=
  ⟨rfl, by decide, by rfl, by rfl⟩

/-- Claim C2 (amended): on a document whose first `defs` (document order)
is `d`, the pruner replaces exactly the children of that defs element,
keeping a child iff it has no `id` attribute, its id is the empty string
(the `if id_attr:` truthiness guard), or its id is referenced anywhere in
the serialized document text via `url(#id)` or `href="#id"`, and removing
every other child. -/
theorem remove_unused_defs_spec (t d : XTree) (h : findTagT "defs" t = some d) :
    remove_unused_defs_core t = pruneRoot (keepSpec t) t ∧
    ∀ c ∈ d.kids.toList,
      (getAttr "id" c = none → keepSpec t c = true) ∧
      (getAttr "id" c = some "" → keepSpec t c = true) ∧
      (∀ a, getAttr "id" c = some a → a ≠ "" →
        (keepSpec t c = true ↔
          (strHasSub (tostring t) ("url(#" ++ a ++ ")") = true ∨
           strHasSub (tostring t) ("href=\"#" ++ a ++ "\"") = true))) := by
  constructor
  · unfold remove_unused_defs_core
    rw [h]
    cases t with
    | node tg at0 tx tl kids =>
      unfold pruneRoot
      dsimp only
      have hF : findTagF "defs" kids = some d := h
      rw [pruneF_congr _ _ d (keep_core_eq_spec _ d) kids hF]
  · intro c hc
    refine ⟨?_, ?_, ?_⟩
    · intro hid
      simp [keepSpec, hid]
    · intro hid
      simp [keepSpec, hid]
    · intro a hid ha
      simp only [keepSpec, hid, decide_eq_false ha, Bool.false_or]
      unfold refTest
      rw [Bool.or_eq_true]
      have h1 : strHasSub (tostring t) ("url(#" ++ a ++ ")") =
          hasSub ("url(#".data ++ a.data ++ [')']) (tostringT t) := by
        simp [strHasSub, tostring, String.data_append]
      have h2 : strHasSub (tostring t) ("href=\"#" ++ a ++ "\"") =
          hasSub ("href=\"#".data ++ a.data ++ ['"']) (tostringT t) := by
        simp [strHasSub, tostring, String.data_append]
      rw [h1, h2]

theorem remove_unused_defs_spec_witness :
    findTagT "defs" c2doc = some c2defs ∧
    (remove_unused_defs_core c2doc = pruneRoot (keepSpec c2doc) c2doc ∧
     ∀ c ∈ c2defs.kids.toList,
       (getAttr "id" c = none → keepSpec c2doc c = true) ∧
       (getAttr "id" c = some "" → keepSpec c2doc c = true) ∧
       (∀ a, getAttr "id" c = some a → a ≠ "" →
         (keepSpec c2doc c = true ↔
           (strHasSub (tostring c2doc) ("url(#" ++ a ++ ")") = true ∨
            strHasSub (tostring c2doc) ("href=\"#" ++ a ++ "\"") = true)))) :=
  ⟨rfl, remove_unused_defs_spec c2doc c2defs rfl⟩
